import Mathlib

/-!
# Story toy — verification of the generation, sanitization, audio and orchestration core

Shallow embedding of the core subsystems of the `story` repository:

* the strict story sanitizers and deterministic fallback generators of
  `src/app/api/generate/route.ts` and `src/app/api/generate-bilingual/route.ts`;
* the WAV audio encoder of `src/components/StoryToy.tsx`
  (`resampleLinear`, `audioBufferToWavBlob`);
* the conversation orchestration of `src/app/api/chat/route.ts`
  (voice tier → text tier → TTS cascade);
* the gesture-deferred playback scheduler and the recording watchdog of the
  client component (`addOneTimeGestureListener`, `scheduleSpeakOnNextGesture`,
  `stopRecordingAndSend`).

JavaScript strings are modelled as lists of UTF-16 code units (`JSStr := List Nat`):
`s.length`, `s.charCodeAt(i)`, `s.split("")` and `.slice` in the source act on
code units, so this is the faithful carrier.  String literals appearing in the
source are embedded through `jsStr`, which maps each character to its code
point (every literal in the relevant source is in the basic multilingual
plane, where code point = UTF-16 unit).  Audio samples are modelled as
rationals: the encoder's arithmetic (channel averaging, linear interpolation,
clamping, scaling) is embedded exactly, idealizing IEEE-754 rounding.
-/

namespace Story

/-- A JavaScript string: its sequence of UTF-16 code units. -/
abbrev JSStr := List Nat

/-- Embed a Lean string literal as a JS string (code points; all literals used
are in the BMP, where code point and UTF-16 unit coincide). -/
def jsStr (s : String) : JSStr := s.data.map Char.toNat

/-- ECMAScript `\s` / `String.prototype.trim` whitespace class. -/
def isWs (c : Nat) : Bool :=
  c = 0x9 || c = 0xA || c = 0xB || c = 0xC || c = 0xD || c = 0x20 ||
  c = 0xA0 || c = 0x1680 || (0x2000 ≤ c && c ≤ 0x200A) ||
  c = 0x2028 || c = 0x2029 || c = 0x202F || c = 0x205F || c = 0x3000 || c = 0xFEFF

/-- `s.trim()`: strip leading and trailing whitespace. -/
def jsTrim (s : JSStr) : JSStr :=
  ((s.dropWhile isWs).reverse.dropWhile isWs).reverse

/-- `clampText` (identical in every route): trim, then truncate to `maxLen`
code units.  `s.slice(0, maxLen)` on a string of length ≤ maxLen is the string
itself, so both branches are `take maxLen` after the length test. -/
def clampText (input : JSStr) (maxLen : Nat) : JSStr :=
  let s := jsTrim input
  if s.length ≤ maxLen then s else s.take maxLen

/-- JavaScript `Array.prototype.join(sep)`. -/
def joinSep (sep : JSStr) : List JSStr → JSStr
  | [] => []
  | [p] => p
  | p :: q :: rest => p ++ sep ++ joinSep sep (q :: rest)

/-- `stableChoice`: sum the code units into a 32-bit accumulator
(`(acc + seed.charCodeAt(i)) >>> 0`), pick `items[acc % items.length]`,
empty string when out of range or the list is empty. -/
def stableChoice (seed : JSStr) (items : List JSStr) : JSStr :=
  let acc := seed.foldl (fun acc c => (acc + c) % 2 ^ 32) 0
  let idx := if items.length = 0 then 0 else acc % items.length
  items.getD idx []

/-! ## Character classes and primitive regex operations -/

/-- The CJK ideograph block `一-鿿`. -/
def isCJK (c : Nat) : Bool := 0x4E00 ≤ c && c ≤ 0x9FFF

/-- Code units of the zh punctuation involved. -/
def zhPeriod : Nat := 0x3002  -- 。
def zhComma : Nat := 0xFF0C   -- ，
def zhQuestion : Nat := 0xFF1F -- ？
def zhBang : Nat := 0xFF01     -- ！

/-- Characters the zh sanitizer keeps: `[一-鿿。，？！]`. -/
def zhKept (c : Nat) : Bool :=
  isCJK c || c = zhPeriod || c = zhComma || c = zhQuestion || c = zhBang

/-- `replace(/[？！]/g, "。")`. -/
def zhMapQE (s : JSStr) : JSStr :=
  s.map fun c => if c = zhQuestion || c = zhBang then zhPeriod else c

/-- JavaScript `split(sep)` for a one-unit separator: never empty, keeps empty
pieces (`"。".split("。") = ["", ""]`). -/
def splitOnUnit (sep : Nat) : JSStr → List JSStr
  | [] => [[]]
  | c :: rest =>
    if c = sep then [] :: splitOnUnit sep rest
    else
      match splitOnUnit sep rest with
      | [] => [[c]]
      | p :: ps => (c :: p) :: ps

/-- `x.replace(/，+$/g, "")` (and, for en, `/,+$/g`): strip a trailing run of
the given unit. -/
def stripTrailRun (u : Nat) (s : JSStr) : JSStr :=
  (s.reverse.dropWhile (· = u)).reverse

/-! ## The strict zh sanitizer and fallback
(`sanitizeStrictStory` in `generate/route.ts`, textually identical to
`sanitizeStrictZhStory` in `generate-bilingual/route.ts`, and the shared
fallback generators). -/

/-- `sanitizeStrictStory` / `sanitizeStrictZhStory`:
remove all whitespace (`/\s+/g → ""`), map `？！` to `。`, keep only
`[一-鿿。，？！]`, map `？！` to `。` again, split on `。`, strip each
piece's trailing `，` run, drop empty pieces, keep at most 10, rejoin with `。`
and a trailing `。`; empty string when no sentence remains. -/
def sanitizeStrictStory (story : JSStr) : JSStr :=
  let s := story.filter (fun c => !isWs c)
  let s := zhMapQE s
  let s := s.filter zhKept
  let s := zhMapQE s
  let sentences :=
    ((((splitOnUnit zhPeriod s).map (stripTrailRun zhComma)).filter
      (fun x => x.length ≠ 0)).take 10)
  if sentences.length = 0 then []
  else joinSep [zhPeriod] sentences ++ [zhPeriod]

/-- `sanitizeStrictZhStory` of the bilingual route: same text as
`sanitizeStrictStory`. -/
def sanitizeStrictZhStory : JSStr → JSStr := sanitizeStrictStory

/-- Candidate lists of the zh fallback. -/
def zhAnimals : List JSStr := [jsStr "小兔", jsStr "小熊", jsStr "小鹿", jsStr "小猫", jsStr "小狗"]
def zhItems : List JSStr := [jsStr "魔法叶", jsStr "小铃铛", jsStr "彩色石", jsStr "泡泡棒", jsStr "星星贴"]
def zhSounds : List JSStr := [jsStr "啾啾", jsStr "咕噜", jsStr "呼呼", jsStr "叮叮", jsStr "哗啦"]

/-- The ten template lines of `fallbackStrictZhStory`. -/
def zhLines (animal item s1 : JSStr) : List JSStr :=
  [ jsStr "森林里" ++ s1 ++ jsStr "响。",
    animal ++ jsStr "有个小愿望。",
    jsStr "它想找到" ++ item ++ jsStr "。",
    jsStr "它轻轻走进树影里。",
    jsStr "小动物们也来帮忙。",
    jsStr "它们找呀找不停。",
    jsStr "忽然一片叶子发光。",
    item ++ jsStr "跳到手心里。",
    jsStr "大家笑得圆圆的。",
    jsStr "它们约好再冒险。" ]

/-- `fallbackStrictZhStory`: pick animal / item (from the reversed seed) /
sound, keep `max(6, min(10, 6 + seed.length % 5))` template lines, join with no
separator. -/
def fallbackStrictZhStory (seed : JSStr) : JSStr :=
  let animal := stableChoice seed zhAnimals
  let item := stableChoice seed.reverse zhItems
  let s1 := stableChoice (seed ++ jsStr "-s") zhSounds
  let count := max 6 (min 10 (6 + seed.length % 5))
  joinSep [] ((zhLines animal item s1).take count)

/-! ## The strict en sanitizer and fallback
(`sanitizeStrictEnglishStory`, `fallbackStrictEnglishStory` in
`generate-bilingual/route.ts`). -/

/-- `replace(/\r\n/g, "\n")`: fuse CR-LF pairs, left to right. -/
def stripCRLF : JSStr → JSStr
  | [] => []
  | 13 :: 10 :: rest => 10 :: stripCRLF rest
  | c :: rest => c :: stripCRLF rest

/-- `replace(/\s+/g, " ")`: each maximal whitespace run becomes one space. -/
def collapseWsAll : JSStr → JSStr
  | [] => []
  | [c] => if isWs c then [32] else [c]
  | c :: d :: rest =>
    if isWs c && isWs d then collapseWsAll (d :: rest)
    else (if isWs c then 32 else c) :: collapseWsAll (d :: rest)

/-- `replace(/\s{2,}/g, " ")`: whitespace runs of length ≥ 2 become one space;
a lone whitespace unit is untouched.  `inRun` records that the current unit
continues a run already known to have length ≥ 2. -/
def collapseWs2 (inRun : Bool) : JSStr → JSStr
  | [] => []
  | [c] => if isWs c && inRun then [32] else [c]
  | c :: d :: rest =>
    if isWs c && isWs d then collapseWs2 true (d :: rest)
    else (if isWs c && inRun then 32 else c) :: collapseWs2 false (d :: rest)

/-- `replace(/,{2,}/g, ",")`: comma runs collapse to a single comma. -/
def collapseCommaRun : JSStr → JSStr
  | [] => []
  | [c] => [c]
  | c :: d :: rest =>
    if c = 44 && d = 44 then collapseCommaRun (d :: rest)
    else c :: collapseCommaRun (d :: rest)

/-- ASCII letter. -/
def isEnAlpha (c : Nat) : Bool := (65 ≤ c && c ≤ 90) || (97 ≤ c && c ≤ 122)

/-- Characters the en sanitizer keeps: `[A-Za-z ,.!?]`. -/
def enKept (c : Nat) : Bool :=
  isEnAlpha c || c = 32 || c = 44 || c = 46 || c = 33 || c = 63

/-- `replace(/[!?]/g, ".")`. -/
def enMapBang (s : JSStr) : JSStr :=
  s.map fun c => if c = 33 || c = 63 then 46 else c

/-- `sanitizeStrictEnglishStory`: normalize CR-LF, collapse whitespace and
trim, keep only `[A-Za-z ,.!?]`, map `!?` to `.`, collapse repeated
whitespace and commas, split on `.`, trim each piece and strip its trailing
comma run, drop empty pieces, keep at most 10, rejoin with `". "` and a
trailing `"."`; empty string when no sentence remains. -/
def sanitizeStrictEnglishStory (story : JSStr) : JSStr :=
  let s := stripCRLF story
  let s := jsTrim (collapseWsAll s)
  let s := s.filter enKept
  let s := enMapBang s
  let s := jsTrim (collapseWs2 false s)
  let s := jsTrim (collapseCommaRun s)
  let sentences :=
    ((((splitOnUnit 46 s).map (fun x => jsTrim (stripTrailRun 44 (jsTrim x)))).filter
      (fun x => x.length ≠ 0)).take 10)
  if sentences.length = 0 then []
  else joinSep (jsStr ". ") sentences ++ [46]

/-- Candidate lists of the en fallback. -/
def enAnimals : List JSStr :=
  [jsStr "Bunny", jsStr "Bear", jsStr "Deer", jsStr "Kitten", jsStr "Puppy"]
def enItems : List JSStr :=
  [jsStr "magic leaf", jsStr "tiny bell", jsStr "colorful stone",
   jsStr "bubble wand", jsStr "star sticker"]
def enSounds : List JSStr :=
  [jsStr "tweet tweet", jsStr "rumble", jsStr "whoosh", jsStr "ding ding",
   jsStr "swish swish"]

/-- The ten template lines of `fallbackStrictEnglishStory`. -/
def enLines (animal item s1 : JSStr) : List JSStr :=
  [ jsStr "In the forest, " ++ s1 ++ jsStr ".",
    animal ++ jsStr " has a small wish.",
    animal ++ jsStr " wants to find a " ++ item ++ jsStr ".",
    animal ++ jsStr " walks softly under the trees.",
    jsStr "Little animal friends come to help.",
    jsStr "They look and look with happy steps.",
    jsStr "A leaf suddenly glows bright.",
    jsStr "The " ++ item ++ jsStr " lands in a warm paw.",
    jsStr "Everyone laughs in a round little circle.",
    jsStr "They wave and plan the next adventure." ]

/-- `fallbackStrictEnglishStory`: same selection scheme as the zh fallback,
lines joined with a single space. -/
def fallbackStrictEnglishStory (seed : JSStr) : JSStr :=
  let animal := stableChoice seed enAnimals
  let item := stableChoice seed.reverse enItems
  let s1 := stableChoice (seed ++ jsStr "-s") enSounds
  let count := max 6 (min 10 (6 + seed.length % 5))
  joinSep [32] ((enLines animal item s1).take count)

/-! ## The ending rewrite of `generate/route.ts` (`rewriteTemplateEnding`)

JS `String.prototype.replace` with a non-global `$`-anchored pattern removes
the leftmost (hence longest) suffix matching the pattern; `.test` asks whether
any suffix matches.  Both are embedded through a full-match predicate applied
to every suffix, leftmost first. -/

/-- The terminal-punctuation class `[。.!！]` of the ending-rewrite regexes. -/
def zhTermClass (c : Nat) : Bool := c = zhPeriod || c = 46 || c = 33 || c = zhBang

/-- Full match of `晚安我的宝贝[，,]\s*做一个甜甜的梦[。.!！]*` against all of `s`. -/
def matchTemplateTail (s : JSStr) : Bool :=
  let lit1 := jsStr "晚安我的宝贝"
  let lit2 := jsStr "做一个甜甜的梦"
  if s.take lit1.length = lit1 then
    match s.drop lit1.length with
    | [] => false
    | c :: rest =>
      if c = zhComma || c = 44 then
        let rest := rest.dropWhile isWs
        if rest.take lit2.length = lit2 then (rest.drop lit2.length).all zhTermClass
        else false
      else false
  else false

/-- The alternatives of the sleepy-tail regex. -/
def sleepyAlts : List JSStr :=
  [jsStr "晚安", jsStr "做一个甜甜的梦", jsStr "进入梦乡", jsStr "睡吧",
   jsStr "闭上眼", jsStr "做个美梦", jsStr "安心睡", jsStr "快去睡"]

/-- Full match of `(晚安|做一个甜甜的梦|…|快去睡)[。.!！]*` against all of `s`. -/
def matchSleepyTail (s : JSStr) : Bool :=
  sleepyAlts.any fun alt =>
    s.take alt.length = alt && (s.drop alt.length).all zhTermClass

/-- `.test` of a `$`-anchored regex: some suffix fully matches. -/
def anchoredTest (m : JSStr → Bool) : JSStr → Bool
  | [] => m []
  | c :: rest => m (c :: rest) || anchoredTest m rest

/-- Non-global `replace(pat, "")` for a `$`-anchored pattern: drop the
leftmost fully-matching suffix (every match of such a pattern ends at the end
of the string). -/
def replaceAnchored (m : JSStr → Bool) : JSStr → JSStr
  | [] => []
  | c :: rest => if m (c :: rest) then [] else c :: replaceAnchored m rest

/-- `replace(/\s+$/g, "")`: strip trailing whitespace. -/
def stripTrailWs (s : JSStr) : JSStr := (s.reverse.dropWhile isWs).reverse

/-- Does `s` end in `[。.!！]` (the `joiner` test)? -/
def endsWithTermClass (s : JSStr) : Bool :=
  match s.getLast? with
  | some c => zhTermClass c
  | none => false

/-- The five replacement endings of the current `generate/route.ts`. -/
def zhEndings : List JSStr :=
  [jsStr "好啦故事先收进口袋我们继续去探险。",
   jsStr "谢谢你听到这里下一次我们再遇见新朋友。",
   jsStr "魔法火花飞走了我们也挥挥手说再见。",
   jsStr "故事先停在这里小伙伴们一起开开心心回家。",
   jsStr "如果你愿意我们下次再去森林里找宝藏。"]

/-- `rewriteTemplateEnding`: when the (whitespace-stripped) story ends in the
bedtime template or a sleepy tail, remove that tail and append one of five
deterministic endings chosen by `stableChoice(seed, endings)`, with `。`
interposed unless the remainder already ends in terminal punctuation. -/
def rewriteTemplateEnding (story seed : JSStr) : JSStr :=
  let s := stripTrailWs story
  if !anchoredTest matchTemplateTail s && !anchoredTest matchSleepyTail s then story
  else
    let without :=
      stripTrailWs (replaceAnchored matchSleepyTail (replaceAnchored matchTemplateTail s))
    let tail := stableChoice seed zhEndings
    if without.length = 0 then tail
    else (if endsWithTermClass without then without ++ tail
          else without ++ [zhPeriod] ++ tail)

/-- `fallbackStrictStory` of `generate/route.ts`: textually identical to
`fallbackStrictZhStory`. -/
def fallbackStrictStory : JSStr → JSStr := fallbackStrictZhStory

/-! ## The audio encoder of `StoryToy.tsx`

Samples are rationals (exact arithmetic standing in for JS doubles/Float32);
byte sequences are `List Nat` with each entry < 256. -/

/-- A decoded `AudioBuffer`: native sample rate, frame count, and one sample
list per channel (`getChannelData`). -/
structure AudioBuffer where
  sampleRate : ℚ
  length : Nat
  channels : List (List ℚ)

/-- The mono downmix: `mono[i] = Σ_ch data[ch][i] / channelCount`
(the source accumulates `data[i] / channelCount` channel by channel). -/
def monoMix (buf : AudioBuffer) : List ℚ :=
  (List.range buf.length).map fun i =>
    buf.channels.foldl (fun acc ch => acc + ch.getD i 0 / (buf.channels.length : ℚ)) 0

/-- `resampleLinear`: identity at equal rates; otherwise
`outLen = max(1, round(len·ratio))` samples obtained by linear interpolation
between the two bracketing source samples, clamping at the buffer edge
(`input[idx] ?? input[len-1] ?? 0`, `input[idx+1] ?? a`). -/
def resampleLinear (input : List ℚ) (inRate outRate : ℚ) : List ℚ :=
  if inRate = outRate then input
  else
    let ratio := outRate / inRate
    let outLen := (max 1 (round ((input.length : ℚ) * ratio))).toNat
    (List.range outLen).map fun i =>
      let src : ℚ := (i : ℚ) / ratio
      let idx : ℕ := (⌊src⌋).toNat
      let frac : ℚ := src - (⌊src⌋ : ℚ)
      let a := input.getD idx (input.getD (input.length - 1) 0)
      let b := input.getD (idx + 1) a
      a + (b - a) * frac

/-- The sample list that is serialized: mono downmix, resample to the target
rate, hard-truncate past `maxSamples = max(1, round(targetRate·maxDur))`. -/
def wavSamples (buf : AudioBuffer) (targetRate maxDur : Nat) : List ℚ :=
  let samples := resampleLinear (monoMix buf) buf.sampleRate (targetRate : ℚ)
  let maxSamples := (max 1 (round ((targetRate : ℚ) * (maxDur : ℚ)))).toNat
  if maxSamples < samples.length then samples.take maxSamples else samples

/-- Two little-endian bytes of a 16-bit value. -/
def u16le (n : Nat) : List Nat := [n % 256, n / 256 % 256]

/-- Four little-endian bytes of a 32-bit value. -/
def u32le (n : Nat) : List Nat :=
  [n % 256, n / 2 ^ 8 % 256, n / 2 ^ 16 % 256, n / 2 ^ 24 % 256]

/-- JS number-to-integer conversion (`ToIntegerOrInfinity`): truncate toward
zero. -/
def jsTruncInt (q : ℚ) : ℤ := if 0 ≤ q then ⌊q⌋ else -⌊-q⌋

/-- One output sample: clamp to `[-1, 1]`, scale negatives by `0x8000` and
non-negatives by `0x7fff`, convert to integer. -/
def sampleToI16 (x : ℚ) : ℤ :=
  let s := max (-1) (min 1 x)
  jsTruncInt (if s < 0 then s * 0x8000 else s * 0x7fff)

/-- `DataView.setInt16(·, true)`: the value's two's-complement low 16 bits,
little-endian. -/
def i16le (v : ℤ) : List Nat := u16le (v % 2 ^ 16).toNat

/-- `audioBufferToWavBlob` as its byte sequence: the 44-byte RIFF/`fmt `/`data`
header followed by the PCM16 little-endian samples.  The four magic strings
are embedded as their ASCII codes (`"RIFF"`, `"WAVE"`, `"fmt "`, `"data"`). -/
def audioBufferToWavBytes (buf : AudioBuffer) (targetRate maxDur : Nat) : List Nat :=
  let samples := wavSamples buf targetRate maxDur
  let bytesPerSample := 2
  let blockAlign := 1 * bytesPerSample
  let byteRate := targetRate * blockAlign
  let dataSize := samples.length * bytesPerSample
  [82, 73, 70, 70] ++ u32le (36 + dataSize) ++
  [87, 65, 86, 69] ++ [102, 109, 116, 32] ++
  u32le 16 ++ u16le 1 ++ u16le 1 ++ u32le targetRate ++ u32le byteRate ++
  u16le blockAlign ++ u16le 16 ++
  [100, 97, 116, 97] ++ u32le dataSize ++
  (samples.map fun s => i16le (sampleToI16 s)).flatten

/-! ## The conversation orchestrator of `chat/route.ts`

The route is embedded as a function of the outcomes of its three external
collaborators.  `VoiceOutcome.failure` covers every way the voice `fetch`
throws or returns non-2xx; `.ok` carries the assistant text extracted from the
2xx JSON (empty when no extraction path yields a string) and the extracted
audio fields.  The text tier (`zhipuChatCompletions`) either throws (`none`)
or returns trimmed non-empty content; `zhipuTts` either throws (`none`) or
returns audio.  JSON/html details, headers and logging are outside the claims
and omitted. -/

inductive VoiceOutcome where
  | failure
  | ok (assistantText : JSStr) (audioBase64 audioMime : Option JSStr)
  deriving DecidableEq

/-- Outcomes of the three collaborator tiers plus whether a TTS model is
configured (`ZHIPU_TTS_MODEL`). -/
structure ChatEnv where
  ttsConfigured : Bool
  voice : VoiceOutcome
  chat : Option JSStr
  tts : Option (JSStr × JSStr)
  deriving DecidableEq

inductive ChatResult where
  | ok (assistantText : JSStr) (audioBase64 audioMime : Option JSStr)
  | err
  deriving DecidableEq

/-- What one run of the route did: which tier produced the text
(`usedTextTier` = the `chat_fallback` upstream mode), whether `zhipuTts` was
invoked and on what input, and the response. -/
structure ChatTrace where
  usedTextTier : Bool
  ttsCalled : Bool
  ttsInput : JSStr
  result : ChatResult
  deriving DecidableEq

/-- The TTS step (`if (!assistantAudioBase64) { … zhipuTts … }`): skipped when
voice audio is present or no TTS model is configured; a TTS throw reaches the
outer catch (HTTP 500). -/
def chatTtsStep (env : ChatEnv) (usedTextTier : Bool) (textOut : JSStr)
    (audioB64 audioMime : Option JSStr) : ChatTrace :=
  match audioB64 with
  | some b => ⟨usedTextTier, false, [], .ok textOut (some b) audioMime⟩
  | none =>
    if env.ttsConfigured then
      match env.tts with
      | none => ⟨usedTextTier, true, textOut, .err⟩
      | some (b, m) => ⟨usedTextTier, true, textOut, .ok textOut (some b) (some m)⟩
    else ⟨usedTextTier, false, [], .ok textOut none audioMime⟩

/-- The per-turn cascade of `POST /api/chat` after input validation: voice
attempt (throwing on failure or on empty extracted text), text-model fallback
inside the catch, then the TTS step.  A text-tier throw escapes to the outer
catch (HTTP 500). -/
def chatPOST (env : ChatEnv) : ChatTrace :=
  let voiceStep : Option (JSStr × Option JSStr × Option JSStr) :=
    match env.voice with
    | .failure => none
    | .ok text audioB64 audioMime =>
      let textOut := clampText text 800
      if textOut.length = 0 then none
      else some (textOut, audioB64, audioMime)
  match voiceStep with
  | some (textOut, audioB64, audioMime) =>
    chatTtsStep env false textOut audioB64 audioMime
  | none =>
    match env.chat with
    | none => ⟨true, false, [], .err⟩
    | some content => chatTtsStep env true (clampText content 800) none none

/-! ## The gesture-deferred playback scheduler of the client component
(`addOneTimeGestureListener`, `scheduleSpeakOnNextGesture`,
`speakWithSystem`).

State of the story-speech modality: the `speakOnGestureArmedRef` flag, the
`pendingSpeakTextRef` payload, the number of registered one-shot listener sets
(one set = the `wrapped` handler on pointerdown/touchstart/click), and a
counter of `window.speechSynthesis.speak` invocations (playback attempts).
`speakThrows` models whether the `speak` call throws synchronously. -/

structure SpeakSched where
  canSystemSpeak : Bool
  armed : Bool
  pendingText : JSStr
  listeners : Nat
  attempts : Nat
  deriving DecidableEq

/-- `scheduleSpeakOnNextGesture`: no-op without speech support, when already
armed, or with no (trimmed) pending text; otherwise arm and register one
listener set. -/
def scheduleSpeakOnNextGesture (st : SpeakSched) : SpeakSched :=
  if !st.canSystemSpeak then st
  else if st.armed then st
  else if (jsTrim st.pendingText).length = 0 then st
  else { st with armed := true, listeners := st.listeners + 1 }

/-- `speakWithSystem`: clear the pending payload, attempt `speak`; a
synchronous throw restores the (trimmed) payload and re-arms. -/
def speakWithSystem (speakThrows : Bool) (text : JSStr) (st : SpeakSched) :
    SpeakSched :=
  if !st.canSystemSpeak then st
  else if (jsTrim text).length = 0 then st
  else
    let st := { st with pendingText := [], attempts := st.attempts + 1 }
    if speakThrows then
      scheduleSpeakOnNextGesture { st with pendingText := jsTrim text }
    else st

/-- The first qualifying gesture event: if a listener set is registered, its
`wrapped` handler runs once — disarm, read the trimmed payload, attempt
playback when non-empty — and the whole set is removed in the handler's
`finally` (the other two one-shot registrations of the same set are removed
with it, so one gesture fires the handler at most once). -/
def fireGesture (speakThrows : Bool) (st : SpeakSched) : SpeakSched :=
  if st.listeners = 0 then st
  else
    let st := { st with listeners := st.listeners - 1, armed := false }
    let t := jsTrim st.pendingText
    if t.length = 0 then st
    else speakWithSystem speakThrows t st

/-! ## The recording stop watchdog of the client component
(`stopRecordingAndSend`, the `recordStopAttemptRef` counter and the
`recordStopWatchdogRef` timer). -/

inductive ChatPhase where
  | idle | recording | encoding | thinking | speaking
  deriving DecidableEq

/-- The recording-session state the watchdog can touch, plus a counter of
issued chat turns (`sendChat` invocations). -/
structure RecSession where
  recording : Bool
  chatSending : Bool
  chatPhase : ChatPhase
  abortRecording : Bool
  recordStopAttempt : Nat
  watchdogAttempt : Option Nat
  chatTurns : Nat
  deriving DecidableEq

/-- The body of the watchdog timer scheduled by `stopRecordingAndSend`,
tagged with the attempt counter value current at scheduling time: a stale tag
(`attemptId !== recordStopAttemptRef.current`) returns immediately; a current
tag clears `chatSending`, moves the phase to `thinking` and issues a nudge
chat turn. -/
def recordStopWatchdogFire (attemptId : Nat) (st : RecSession) : RecSession :=
  if attemptId ≠ st.recordStopAttempt then st
  else { st with chatSending := false, chatPhase := .thinking,
                 chatTurns := st.chatTurns + 1 }

/-- `stopRecordingAndSend`: clear the abort flag, enter the sending/encoding
state, advance the attempt counter, replace any previous watchdog with one
tagged by the new counter value; with no active recorder the watchdog is
cancelled again and a text nudge is sent instead.  Returns the new state and
the tag of the watchdog that was scheduled. -/
def stopRecordingAndSend (recorderActive : Bool) (st : RecSession) :
    RecSession × Nat :=
  let st := { st with abortRecording := false, chatSending := true,
                      chatPhase := .encoding }
  let st := { st with recordStopAttempt := st.recordStopAttempt + 1 }
  let attemptId := st.recordStopAttempt
  let st := { st with watchdogAttempt := some attemptId }
  if recorderActive then (st, attemptId)
  else
    ({ st with watchdogAttempt := none, chatSending := false,
               chatPhase := .thinking, chatTurns := st.chatTurns + 1 },
     attemptId)

/-! ## The story-generation routes

`POST /api/generate-bilingual` and `POST /api/generate`, as functions of the
request body's seed (`none` = missing/invalid-JSON/non-string — the route
coerces all of these to `""`), the upstream chat outcome (`failure` = any
throw of `zhipuChatCompletions`: network error, timeout, non-2xx, empty
content), and — for the bilingual route — the JSON story extraction
(`safeJsonParse` + field reads, abstracted as a function from the upstream
content to the pair `(storyZh, storyEn)` with `""` for missing fields).
`apiKeyOk` is whether `requireEnv("ZHIPU_API_KEY")` succeeds.  The effects
record whether the upstream model was called and whether a story record was
appended (`appendMemory`); response ids and headers are omitted. -/

inductive UpstreamChat where
  | failure
  | ok (content : JSStr)
  deriving DecidableEq

structure RouteEffects where
  upstreamCalled : Bool
  memoryAppended : Bool
  deriving DecidableEq

inductive BilingualResponse where
  | err (status : Nat)
  | ok (storyZh storyEn : JSStr)
  deriving DecidableEq

/-- `POST /api/generate-bilingual`. -/
def generateBilingualPOST (apiKeyOk : Bool) (bodySeed : Option JSStr)
    (upstream : UpstreamChat) (extract : JSStr → JSStr × JSStr) :
    BilingualResponse × RouteEffects :=
  if !apiKeyOk then (.err 500, ⟨false, false⟩)
  else
    let seed := clampText (bodySeed.getD []) 200
    if seed.length = 0 then (.err 400, ⟨false, false⟩)
    else
      match upstream with
      | .failure => (.err 500, ⟨true, false⟩)
      | .ok content =>
        let (zhRaw, enRaw) := extract content
        let storyZh0 := sanitizeStrictZhStory (clampText zhRaw 900)
        let storyEn0 := sanitizeStrictEnglishStory (clampText enRaw 900)
        let storyZh := if storyZh0.length = 0 then fallbackStrictZhStory seed else storyZh0
        let storyEn := if storyEn0.length = 0 then fallbackStrictEnglishStory seed else storyEn0
        (.ok storyZh storyEn, ⟨true, true⟩)

inductive GenerateResponse where
  | err (status : Nat)
  | ok (story : JSStr)
  deriving DecidableEq

/-- `POST /api/generate` (current, sanitizing version). -/
def generatePOST (apiKeyOk : Bool) (bodySeed : Option JSStr)
    (upstream : UpstreamChat) : GenerateResponse × RouteEffects :=
  if !apiKeyOk then (.err 500, ⟨false, false⟩)
  else
    let seed := clampText (bodySeed.getD []) 200
    if seed.length = 0 then (.err 400, ⟨false, false⟩)
    else
      match upstream with
      | .failure => (.err 500, ⟨true, false⟩)
      | .ok content =>
        let raw := rewriteTemplateEnding (clampText (stripCRLF content) 700) seed
        let story0 := sanitizeStrictStory raw
        let story := if story0.length = 0 then fallbackStrictStory seed else story0
        (.ok story, ⟨true, true⟩)

/-! ## Well-formedness predicates

"`k` sentences, each ending with the canonical terminator" is rendered as:
the text ends with the terminator and contains exactly `k` occurrences of it
(such a text decomposes uniquely into `k` terminator-ended segments). -/

/-- The zh character classes admissible in a final story: CJK ideographs plus
`。` and `，`. -/
def zhStoryChar (c : Nat) : Bool := isCJK c || c = zhPeriod || c = zhComma

/-- The en character classes admissible in a final story: ASCII letters,
space, comma, period. -/
def enStoryChar (c : Nat) : Bool := isEnAlpha c || c = 32 || c = 44 || c = 46

/-- A well-formed zh story: non-empty, admissible characters only, ends with
`。`, and between `lo` and `hi` sentences. -/
def zhStoryBetween (lo hi : Nat) (s : JSStr) : Prop :=
  s ≠ [] ∧ (∀ c ∈ s, zhStoryChar c = true) ∧ s.getLast? = some zhPeriod ∧
  lo ≤ s.count zhPeriod ∧ s.count zhPeriod ≤ hi

/-- A well-formed en story: non-empty, admissible characters only, ends with
`.`, and between `lo` and `hi` sentences. -/
def enStoryBetween (lo hi : Nat) (s : JSStr) : Prop :=
  s ≠ [] ∧ (∀ c ∈ s, enStoryChar c = true) ∧ s.getLast? = some 46 ∧
  lo ≤ s.count 46 ∧ s.count 46 ≤ hi

/-! ## Generic lemmas about the string primitives -/

theorem splitOnUnit_ne_nil (sep : Nat) (s : JSStr) : splitOnUnit sep s ≠ [] := by
  induction s with
  | nil => simp [splitOnUnit]
  | cons c rest ih =>
    simp only [splitOnUnit]
    split
    · simp
    · cases h : splitOnUnit sep rest <;> simp

theorem mem_splitOnUnit_not_sep {sep : Nat} {s p : JSStr}
    (hp : p ∈ splitOnUnit sep s) : sep ∉ p := by
  induction s generalizing p with
  | nil => simp [splitOnUnit] at hp; simp [hp]
  | cons c rest ih =>
    simp only [splitOnUnit] at hp
    by_cases hc : c = sep
    · simp [hc] at hp
      rcases hp with h | h
      · simp [h]
      · exact ih h
    · simp [hc] at hp
      cases h : splitOnUnit sep rest with
      | nil => exact absurd h (splitOnUnit_ne_nil sep rest)
      | cons q qs =>
        rw [h] at hp
        simp at hp
        rcases hp with h1 | h1
        · subst h1
          have hq : sep ∉ q := ih (h ▸ List.mem_cons_self q qs)
          simp [hq]
          omega
        · exact ih (h ▸ List.mem_cons_of_mem q h1)

theorem mem_splitOnUnit_subset {sep : Nat} {s p : JSStr}
    (hp : p ∈ splitOnUnit sep s) : ∀ c ∈ p, c ∈ s := by
  induction s generalizing p with
  | nil => simp [splitOnUnit] at hp; simp [hp]
  | cons a rest ih =>
    intro c hc
    simp only [splitOnUnit] at hp
    by_cases ha : a = sep
    · simp [ha] at hp
      rcases hp with h | h
      · simp [h] at hc
      · exact List.mem_cons_of_mem a (ih h c hc)
    · simp [ha] at hp
      cases h : splitOnUnit sep rest with
      | nil => exact absurd h (splitOnUnit_ne_nil sep rest)
      | cons q qs =>
        rw [h] at hp
        simp at hp
        rcases hp with h1 | h1
        · subst h1
          rcases List.mem_cons.mp hc with h2 | h2
          · simp [h2]
          · exact List.mem_cons_of_mem a (ih (h ▸ List.mem_cons_self q qs) c h2)
        · exact List.mem_cons_of_mem a (ih (h ▸ List.mem_cons_of_mem q h1) c hc)

theorem splitOnUnit_cons_ne {sep c : Nat} {z h : JSStr} {t : List JSStr}
    (hc : c ≠ sep) (hz : splitOnUnit sep z = h :: t) :
    splitOnUnit sep (c :: z) = (c :: h) :: t := by
  simp only [splitOnUnit, if_neg hc, hz]

theorem splitOnUnit_append_sep {sep : Nat} {xs ys : JSStr} (h : sep ∉ xs) :
    splitOnUnit sep (xs ++ sep :: ys) = xs :: splitOnUnit sep ys := by
  induction xs with
  | nil => simp [splitOnUnit]
  | cons c rest ih =>
    have hc : c ≠ sep := by intro he; exact h (he ▸ List.mem_cons_self c rest)
    have hr : sep ∉ rest := fun hm => h (List.mem_cons_of_mem c hm)
    have := ih hr
    simpa using splitOnUnit_cons_ne hc this

theorem splitOnUnit_of_not_mem {sep : Nat} {xs : JSStr} (h : sep ∉ xs) :
    splitOnUnit sep xs = [xs] := by
  induction xs with
  | nil => simp [splitOnUnit]
  | cons c rest ih =>
    have hc : c ≠ sep := by intro he; exact h (he ▸ List.mem_cons_self c rest)
    have hr : sep ∉ rest := fun hm => h (List.mem_cons_of_mem c hm)
    simpa using splitOnUnit_cons_ne hc (ih hr)

theorem joinSep_cons_cons (sep p q : JSStr) (rest : List JSStr) :
    joinSep sep (p :: q :: rest) = p ++ sep ++ joinSep sep (q :: rest) := rfl

theorem mem_joinSep {sep : JSStr} {parts : List JSStr} {c : Nat}
    (hc : c ∈ joinSep sep parts) : c ∈ sep ∨ ∃ p ∈ parts, c ∈ p := by
  induction parts with
  | nil => simp [joinSep] at hc
  | cons p rest ih =>
    cases rest with
    | nil => simp [joinSep] at hc; exact Or.inr ⟨p, by simp, hc⟩
    | cons q rest2 =>
      rw [joinSep_cons_cons] at hc
      rcases List.mem_append.mp hc with h | h
      · rcases List.mem_append.mp h with h1 | h1
        · exact Or.inr ⟨p, by simp, h1⟩
        · exact Or.inl h1
      · rcases ih h with h1 | ⟨r, hr, hcr⟩
        · exact Or.inl h1
        · exact Or.inr ⟨r, List.mem_cons_of_mem p hr, hcr⟩

theorem joinSep_count {sep : JSStr} {parts : List JSStr} (u : Nat)
    (h : parts ≠ []) :
    (joinSep sep parts).count u =
      (parts.map (List.count u)).sum + (parts.length - 1) * sep.count u := by
  induction parts with
  | nil => simp at h
  | cons p rest ih =>
    cases rest with
    | nil => simp [joinSep]
    | cons q rest2 =>
      rw [joinSep_cons_cons]
      have := ih (by simp)
      simp only [List.count_append, this]
      simp [List.length_cons, Nat.succ_sub_one]
      ring

theorem joinSep_getLast {sep : JSStr} {parts : List JSStr} {last : JSStr}
    (h : parts.getLast? = some last) (hne : last ≠ []) :
    (joinSep sep parts).getLast? = last.getLast? := by
  induction parts with
  | nil => simp at h
  | cons p rest ih =>
    cases rest with
    | nil =>
      simp at h
      simp [joinSep, h]
    | cons q rest2 =>
      have h2 : (q :: rest2).getLast? = some last := by
        rw [List.getLast?_cons_cons] at h
        exact h
      have h3 := ih h2
      cases hlast : last.getLast? with
      | none =>
        exact absurd (List.getLast?_eq_none_iff.mp hlast) hne
      | some x =>
        rw [joinSep_cons_cons, List.append_assoc]
        rw [List.getLast?_append, List.getLast?_append, h3, hlast]
        rfl

theorem splitOnUnit_joinSep {sep : Nat} {parts : List JSStr}
    (h1 : parts ≠ []) (h2 : ∀ p ∈ parts, sep ∉ p) :
    splitOnUnit sep (joinSep [sep] parts ++ [sep]) = parts ++ [[]] := by
  induction parts with
  | nil => simp at h1
  | cons p rest ih =>
    cases rest with
    | nil =>
      have := @splitOnUnit_append_sep sep p [] (h2 p (by simp))
      simpa [joinSep, splitOnUnit] using this
    | cons q rest2 =>
      have hp : sep ∉ p := h2 p (by simp)
      have hrec := ih (by simp) (fun r hr => h2 r (List.mem_cons_of_mem p hr))
      rw [joinSep_cons_cons]
      have harr : p ++ [sep] ++ joinSep [sep] (q :: rest2) ++ [sep] =
          p ++ sep :: (joinSep [sep] (q :: rest2) ++ [sep]) := by simp
      rw [harr, splitOnUnit_append_sep hp, hrec]
      simp

theorem head_dropWhile_negates {p : Nat → Bool} {l : JSStr} {c : Nat}
    (h : (l.dropWhile p).head? = some c) : p c = false := by
  induction l with
  | nil => simp [List.dropWhile] at h
  | cons a rest ih =>
    rw [List.dropWhile_cons] at h
    split at h
    · exact ih h
    · simp at h
      subst h
      simp_all

theorem mem_dropWhile {p : Nat → Bool} {l : JSStr} {c : Nat}
    (h : c ∈ l.dropWhile p) : c ∈ l :=
  (List.dropWhile_suffix p).subset h

theorem getLast_dropWhile {p : Nat → Bool} {l : JSStr}
    (h : l.dropWhile p ≠ []) : (l.dropWhile p).getLast? = l.getLast? := by
  obtain ⟨pre, hpre⟩ := @List.dropWhile_suffix _ l p
  conv_rhs => rw [← hpre]
  rw [List.getLast?_append]
  cases hl : (l.dropWhile p).getLast? with
  | none => exact absurd (List.getLast?_eq_none_iff.mp hl) h
  | some x => rfl

theorem jsTrim_mem {s : JSStr} {c : Nat} (h : c ∈ jsTrim s) : c ∈ s := by
  simp only [jsTrim, List.mem_reverse] at h
  exact mem_dropWhile (List.mem_reverse.mp (mem_dropWhile h))

theorem jsTrim_getLast_not_ws {s : JSStr} {c : Nat}
    (h : (jsTrim s).getLast? = some c) : isWs c = false := by
  rw [jsTrim, List.getLast?_reverse] at h
  exact head_dropWhile_negates h

theorem jsTrim_head_not_ws {s : JSStr} {c : Nat}
    (h : (jsTrim s).head? = some c) : isWs c = false := by
  rw [jsTrim, List.head?_reverse] at h
  have hne : (s.dropWhile isWs).reverse.dropWhile isWs ≠ [] := by
    intro he
    rw [he] at h
    simp at h
  rw [getLast_dropWhile hne, List.getLast?_reverse] at h
  exact head_dropWhile_negates h

theorem dropWhile_eq_self_of_head {p : Nat → Bool} {l : JSStr}
    (h : ∀ c, l.head? = some c → p c = false) : l.dropWhile p = l := by
  cases l with
  | nil => rfl
  | cons a rest =>
    rw [List.dropWhile_cons, if_neg]
    simp [h a rfl]

theorem jsTrim_eq_self {s : JSStr}
    (h1 : ∀ c, s.head? = some c → isWs c = false)
    (h2 : ∀ c, s.getLast? = some c → isWs c = false) : jsTrim s = s := by
  rw [jsTrim, dropWhile_eq_self_of_head h1, dropWhile_eq_self_of_head, List.reverse_reverse]
  intro c hc
  rw [List.head?_reverse] at hc
  exact h2 c hc

theorem jsTrim_idem (s : JSStr) : jsTrim (jsTrim s) = jsTrim s :=
  jsTrim_eq_self (fun _ h => jsTrim_head_not_ws h) (fun _ h => jsTrim_getLast_not_ws h)

theorem stripTrailRun_getLast {u : Nat} {s : JSStr} {c : Nat}
    (h : (stripTrailRun u s).getLast? = some c) : c ≠ u := by
  rw [stripTrailRun, List.getLast?_reverse] at h
  have := head_dropWhile_negates h
  simpa using this

theorem stripTrailRun_eq_self {u : Nat} {s : JSStr}
    (h : ∀ c, s.getLast? = some c → c ≠ u) : stripTrailRun u s = s := by
  rw [stripTrailRun, dropWhile_eq_self_of_head, List.reverse_reverse]
  intro c hc
  rw [List.head?_reverse] at hc
  simpa using h c hc

theorem mem_stripTrailRun {u : Nat} {s : JSStr} {c : Nat}
    (h : c ∈ stripTrailRun u s) : c ∈ s := by
  simp only [stripTrailRun, List.mem_reverse] at h
  exact List.mem_reverse.mp (mem_dropWhile h)

theorem map_eq_self_of_mem {α : Type} {f : α → α} {s : List α}
    (h : ∀ c ∈ s, f c = c) : s.map f = s := by
  induction s with
  | nil => rfl
  | cons a rest ih =>
    simp only [List.map_cons, h a (by simp)]
    rw [ih fun c hc => h c (List.mem_cons_of_mem a hc)]

theorem clampText_mem {s : JSStr} {n : Nat} {c : Nat}
    (h : c ∈ clampText s n) : c ∈ s := by
  rw [clampText] at h
  split at h
  · exact jsTrim_mem h
  · exact jsTrim_mem (List.mem_of_mem_take h)

theorem clampText_ne_nil {s : JSStr} {n : Nat} (hn : 0 < n)
    (h : jsTrim s ≠ []) : clampText s n ≠ [] := by
  rw [clampText]
  split
  · exact h
  · rename_i hlen
    intro he
    have hlen2 := congrArg List.length he
    rw [List.length_take] at hlen2
    simp only [List.length_nil] at hlen2
    omega

/-! ## Shape of the zh sanitizer output -/

theorem zhStoryChar_props {c : Nat} (h : zhStoryChar c = true) :
    isWs c = false ∧ c ≠ zhQuestion ∧ c ≠ zhBang ∧ zhKept c = true := by
  simp only [zhStoryChar, isCJK, zhPeriod, zhComma, Bool.or_eq_true,
    Bool.and_eq_true, decide_eq_true_eq] at h
  refine ⟨?_, ?_, ?_, ?_⟩
  · have : ¬ isWs c = true := by
      simp only [isWs, Bool.or_eq_true, Bool.and_eq_true, decide_eq_true_eq]
      omega
    simpa using this
  · simp only [zhQuestion]; omega
  · simp only [zhBang]; omega
  · simp only [zhKept, isCJK, zhPeriod, zhComma, zhQuestion, zhBang,
      Bool.or_eq_true, Bool.and_eq_true, decide_eq_true_eq]
    omega

theorem zhNormChar_mem {x : JSStr} {c : Nat}
    (h : c ∈ zhMapQE ((zhMapQE (x.filter (fun c => !isWs c))).filter zhKept)) :
    zhStoryChar c = true := by
  simp only [zhMapQE, List.mem_map] at h
  obtain ⟨b, hb, hbc⟩ := h
  have hkept : zhKept b = true := (List.mem_filter.mp hb).2
  by_cases hq : b = zhQuestion ∨ b = zhBang
  · have : c = zhPeriod := by
      rcases hq with h1 | h1 <;> simp [h1] at hbc <;> omega
    simp [this, zhStoryChar, zhPeriod, isCJK, zhComma]
  · push_neg at hq
    have hcb : c = b := by
      rw [if_neg] at hbc
      · exact hbc.symm
      · simp only [decide_eq_true_eq, Bool.or_eq_true]
        tauto
    subst hcb
    simp only [zhKept, Bool.or_eq_true, decide_eq_true_eq] at hkept
    simp only [zhStoryChar, Bool.or_eq_true, decide_eq_true_eq]
    rcases hkept with h1 | h1 | h1 | h1 | h1 <;> tauto

theorem sanitizeStrictStory_shape (x : JSStr) :
    sanitizeStrictStory x = [] ∨
    ∃ parts : List JSStr, parts ≠ [] ∧ parts.length ≤ 10 ∧
      (∀ p ∈ parts, p ≠ [] ∧ (∀ c ∈ p, zhStoryChar c = true ∧ c ≠ zhPeriod) ∧
        p.getLast? ≠ some zhComma) ∧
      sanitizeStrictStory x = joinSep [zhPeriod] parts ++ [zhPeriod] := by
  rw [sanitizeStrictStory]
  set s := zhMapQE ((zhMapQE (x.filter (fun c => !isWs c))).filter zhKept) with hs
  set parts := (((splitOnUnit zhPeriod s).map (stripTrailRun zhComma)).filter
      (fun x => x.length ≠ 0)).take 10 with hparts
  by_cases hl : parts.length = 0
  · left; simp [hl]
  · right
    refine ⟨parts, ?_, ?_, ?_, by simp [hl]⟩
    · intro he; exact hl (by simp [he])
    · rw [hparts]; exact List.length_take_le 10 _
    · intro p hp
      have hp1 := List.mem_of_mem_take hp
      have hp2 : p.length ≠ 0 := by
        have := (List.mem_filter.mp hp1).2
        simpa using this
      have hp3 := (List.mem_filter.mp hp1).1
      simp only [List.mem_map] at hp3
      obtain ⟨q, hq, hqp⟩ := hp3
      refine ⟨by simpa using hp2, ?_, ?_⟩
      · intro c hc
        have hcq : c ∈ q := mem_stripTrailRun (hqp ▸ hc)
        constructor
        · exact zhNormChar_mem (mem_splitOnUnit_subset hq c hcq)
        · intro he
          exact mem_splitOnUnit_not_sep hq (he ▸ hcq)
      · intro he
        exact stripTrailRun_getLast (hqp ▸ he) rfl

theorem sanitizeStrictStory_fixed {parts : List JSStr}
    (hne : parts ≠ []) (hlen : parts.length ≤ 10)
    (hp : ∀ p ∈ parts, p ≠ [] ∧ (∀ c ∈ p, zhStoryChar c = true ∧ c ≠ zhPeriod) ∧
      p.getLast? ≠ some zhComma) :
    sanitizeStrictStory (joinSep [zhPeriod] parts ++ [zhPeriod]) =
      joinSep [zhPeriod] parts ++ [zhPeriod] := by
  set y := joinSep [zhPeriod] parts ++ [zhPeriod] with hy
  have hchar : ∀ c ∈ y, zhStoryChar c = true := by
    intro c hc
    rcases List.mem_append.mp hc with h | h
    · rcases mem_joinSep h with h1 | ⟨p, hp1, hp2⟩
      · simp at h1
        simp [h1, zhStoryChar, zhPeriod, isCJK, zhComma]
      · exact ((hp p hp1).2.1 c hp2).1
    · simp at h
      simp [h, zhStoryChar, zhPeriod, isCJK, zhComma]
  rw [sanitizeStrictStory]
  have e1 : y.filter (fun c => !isWs c) = y := by
    rw [List.filter_eq_self]
    intro c hc
    simp [(zhStoryChar_props (hchar c hc)).1]
  have e2 : zhMapQE y = y := by
    rw [zhMapQE]
    apply map_eq_self_of_mem
    intro c hc
    obtain ⟨-, h2, h3, -⟩ := zhStoryChar_props (hchar c hc)
    simp [h2, h3]
  have e3 : y.filter zhKept = y := by
    rw [List.filter_eq_self]
    intro c hc
    exact (zhStoryChar_props (hchar c hc)).2.2.2
  rw [e1, e2, e3, e2]
  have e4 : splitOnUnit zhPeriod y = parts ++ [[]] := by
    rw [hy]
    exact splitOnUnit_joinSep hne fun p hpp => by
      intro hmem
      exact ((hp p hpp).2.1 zhPeriod hmem).2 rfl
  rw [e4, List.map_append]
  have e5 : parts.map (stripTrailRun zhComma) = parts := by
    apply map_eq_self_of_mem
    intro p hpp
    apply stripTrailRun_eq_self
    intro c hc he
    exact (hp p hpp).2.2 (he ▸ hc)
  have e6 : ([[]] : List JSStr).map (stripTrailRun zhComma) = [[]] := rfl
  rw [e5, e6, List.filter_append]
  have e7 : parts.filter (fun x => decide (x.length ≠ 0)) = parts := by
    rw [List.filter_eq_self]
    intro p hpp
    have := (hp p hpp).1
    simp [List.length_eq_zero]
    exact this
  have e8 : ([[]] : List JSStr).filter (fun x => decide (x.length ≠ 0)) = [] := rfl
  rw [e7, e8, List.append_nil]
  rw [List.take_of_length_le hlen]
  rw [if_neg (by simpa using fun h => hne (List.length_eq_zero.mp h))]

/-! ## Settling the idempotence claim -/

/-- C3 (amended): sanitizing twice equals sanitizing once for the strict zh
sanitizer — `sanitizeStrictStory` of `generate/route.ts` and its textually
identical copy `sanitizeStrictZhStory` of the bilingual route — for every
input, including inputs whose sanitization is empty.  (The claim's universal
statement over both languages fails: the en sanitizer is not idempotent, see
its counterexample theorem.) -/
theorem C3_zh_sanitizer_idempotent (x : JSStr) :
    sanitizeStrictStory (sanitizeStrictStory x) = sanitizeStrictStory x ∧
    sanitizeStrictZhStory (sanitizeStrictZhStory x) = sanitizeStrictZhStory x := by
  have main : sanitizeStrictStory (sanitizeStrictStory x) = sanitizeStrictStory x := by
    rcases sanitizeStrictStory_shape x with h | ⟨parts, h1, h2, h3, h4⟩
    · rw [h]; rfl
    · rw [h4]; exact sanitizeStrictStory_fixed h1 h2 h3
  exact ⟨main, main⟩

/-- C3 counterexample: the en sanitizer is not idempotent.  On `"x, ,. b."`
the first pass turns the piece `"x, ,"` into `"x,"` (the comma-strip runs
before the final trim, which re-exposes a trailing comma), so a second pass
still changes the text. -/
theorem C3_en_sanitizer_not_idempotent :
    sanitizeStrictEnglishStory (sanitizeStrictEnglishStory (jsStr "x, ,. b.")) ≠
      sanitizeStrictEnglishStory (jsStr "x, ,. b.") := by decide

/-! ## The fallback generators produce well-formed stories -/

theorem stableChoice_mem {seed : JSStr} {items : List JSStr} (h : items ≠ []) :
    stableChoice seed items ∈ items := by
  have hlen : items.length ≠ 0 := fun he => h (List.length_eq_zero.mp he)
  have he : stableChoice seed items =
      items.getD ((seed.foldl (fun acc c => (acc + c) % 2 ^ 32) 0) % items.length) [] := by
    rw [stableChoice]
    simp [hlen]
  rw [he]
  have hil : (seed.foldl (fun acc c => (acc + c) % 2 ^ 32) 0) % items.length <
      items.length := Nat.mod_lt _ (Nat.pos_of_ne_zero hlen)
  rw [List.getD_eq_getElem?_getD, List.getElem?_eq_getElem hil]
  simp only [Option.getD_some]
  exact List.getElem_mem hil

theorem zhLines_props {animal item s1 : JSStr}
    (ha : animal ∈ zhAnimals) (hi : item ∈ zhItems) (hs : s1 ∈ zhSounds) :
    ∀ l ∈ zhLines animal item s1,
      (∀ c ∈ l, zhStoryChar c = true) ∧ l.count zhPeriod = 1 ∧
      l.getLast? = some zhPeriod := by
  intro l hl
  simp only [zhLines, List.mem_cons, List.not_mem_nil, or_false] at hl
  rcases hl with rfl | rfl | rfl | rfl | rfl | rfl | rfl | rfl | rfl | rfl
  · fin_cases hs <;> decide
  · fin_cases ha <;> decide
  · fin_cases hi <;> decide
  · decide
  · decide
  · decide
  · decide
  · fin_cases hi <;> decide
  · decide
  · decide

theorem enLines_props {animal item s1 : JSStr}
    (ha : animal ∈ enAnimals) (hi : item ∈ enItems) (hs : s1 ∈ enSounds) :
    ∀ l ∈ enLines animal item s1,
      (∀ c ∈ l, enStoryChar c = true) ∧ l.count 46 = 1 ∧
      l.getLast? = some 46 := by
  intro l hl
  simp only [enLines, List.mem_cons, List.not_mem_nil, or_false] at hl
  rcases hl with rfl | rfl | rfl | rfl | rfl | rfl | rfl | rfl | rfl | rfl
  · fin_cases hs <;> decide
  · fin_cases ha <;> decide
  · fin_cases ha <;> fin_cases hi <;> decide
  · fin_cases ha <;> decide
  · decide
  · decide
  · decide
  · fin_cases hi <;> decide
  · decide
  · decide

theorem sum_map_count_one {l : List JSStr} {f : JSStr → Nat}
    (h : ∀ p ∈ l, f p = 1) : (l.map f).sum = l.length := by
  induction l with
  | nil => rfl
  | cons p rest ih =>
    simp only [List.map_cons, List.sum_cons, h p (by simp), List.length_cons,
      ih fun q hq => h q (List.mem_cons_of_mem p hq)]
    omega

theorem joinSep_story (sep : JSStr) {lines : List JSStr} {term : Nat}
    {P : Nat → Bool} (hsep : ∀ c ∈ sep, P c = true) (hsepterm : term ∉ sep)
    (hne : lines ≠ [])
    (hprops : ∀ l ∈ lines, (∀ c ∈ l, P c = true) ∧ l.count term = 1 ∧
      l.getLast? = some term) :
    joinSep sep lines ≠ [] ∧ (∀ c ∈ joinSep sep lines, P c = true) ∧
    (joinSep sep lines).getLast? = some term ∧
    (joinSep sep lines).count term = lines.length := by
  have hchars : ∀ c ∈ joinSep sep lines, P c = true := by
    intro c hc
    rcases mem_joinSep hc with h | ⟨p, hp, hcp⟩
    · exact hsep c h
    · exact (hprops p hp).1 c hcp
  have hlast : (joinSep sep lines).getLast? = some term := by
    have hl := List.getLast?_eq_getLast lines hne
    have hmem := List.getLast_mem hne
    have hp := hprops _ hmem
    have hlast2 : (lines.getLast hne).getLast? = some term := hp.2.2
    have hnn : lines.getLast hne ≠ [] := by
      intro he; rw [he] at hlast2; simp at hlast2
    rw [joinSep_getLast hl hnn, hlast2]
  refine ⟨?_, hchars, hlast, ?_⟩
  · intro he; rw [he] at hlast; simp at hlast
  · rw [joinSep_count term hne, sum_map_count_one fun p hp => (hprops p hp).2.1]
    rw [List.count_eq_zero.mpr hsepterm]
    omega

/-- C2: for every seed and each language, the fallback story uses only the
language's allowed characters (zh: CJK ideographs plus `。` and `，`; en:
letters, space, comma, period), consists of between 6 and 10 sentences, and
every sentence ends with the language's canonical terminator (rendered: the
story ends with the terminator, which occurs exactly sentence-count many
times). -/
theorem C2_fallback_wellformed (seed : JSStr) :
    zhStoryBetween 6 10 (fallbackStrictZhStory seed) ∧
    enStoryBetween 6 10 (fallbackStrictEnglishStory seed) := by
  have hm : seed.length % 5 < 5 := Nat.mod_lt _ (by norm_num)
  constructor
  · rw [fallbackStrictZhStory, zhStoryBetween]
    set count := max 6 (min 10 (6 + seed.length % 5)) with hcount
    have hc1 : 6 ≤ count := le_max_left _ _
    have hc2 : count ≤ 10 := by omega
    set lines := (zhLines (stableChoice seed zhAnimals)
      (stableChoice seed.reverse zhItems)
      (stableChoice (seed ++ jsStr "-s") zhSounds)).take count with hlines
    have hlen : lines.length = count := by
      rw [hlines, List.length_take]
      simp [zhLines]
      omega
    have hne : lines ≠ [] := by
      intro he; rw [he] at hlen; simp at hlen; omega
    have hprops : ∀ l ∈ lines, (∀ c ∈ l, zhStoryChar c = true) ∧
        l.count zhPeriod = 1 ∧ l.getLast? = some zhPeriod := fun l hl =>
      zhLines_props (stableChoice_mem (by simp [zhAnimals]))
        (stableChoice_mem (by simp [zhItems]))
        (stableChoice_mem (by simp [zhSounds])) l (List.mem_of_mem_take hl)
    obtain ⟨j1, j2, j3, j4⟩ :=
      joinSep_story [] (by simp) (by simp) hne hprops
    exact ⟨j1, j2, j3, by rw [j4, hlen]; omega, by rw [j4, hlen]; omega⟩
  · rw [fallbackStrictEnglishStory, enStoryBetween]
    set count := max 6 (min 10 (6 + seed.length % 5)) with hcount
    have hc1 : 6 ≤ count := le_max_left _ _
    have hc2 : count ≤ 10 := by omega
    set lines := (enLines (stableChoice seed enAnimals)
      (stableChoice seed.reverse enItems)
      (stableChoice (seed ++ jsStr "-s") enSounds)).take count with hlines
    have hlen : lines.length = count := by
      rw [hlines, List.length_take]
      simp [enLines]
      omega
    have hne : lines ≠ [] := by
      intro he; rw [he] at hlen; simp at hlen; omega
    have hprops : ∀ l ∈ lines, (∀ c ∈ l, enStoryChar c = true) ∧
        l.count 46 = 1 ∧ l.getLast? = some 46 := fun l hl =>
      enLines_props (stableChoice_mem (by simp [enAnimals]))
        (stableChoice_mem (by simp [enItems]))
        (stableChoice_mem (by simp [enSounds])) l (List.mem_of_mem_take hl)
    obtain ⟨j1, j2, j3, j4⟩ :=
      joinSep_story [32] (by decide) (by decide) hne hprops
    exact ⟨j1, j2, j3, by rw [j4, hlen]; omega, by rw [j4, hlen]; omega⟩

/-! ## Shape of the en sanitizer output -/

theorem mem_collapseCommaRun {s : JSStr} {c : Nat}
    (h : c ∈ collapseCommaRun s) : c ∈ s := by
  induction s with
  | nil => simpa [collapseCommaRun] using h
  | cons a rest ih =>
    cases rest with
    | nil => simp [collapseCommaRun] at h; simp [h]
    | cons b rest2 =>
      rw [collapseCommaRun] at h
      split at h
      · exact List.mem_cons_of_mem a (ih h)
      · rcases List.mem_cons.mp h with h1 | h1
        · simp [h1]
        · exact List.mem_cons_of_mem a (ih h1)

theorem mem_collapseWs2 {s : JSStr} {inRun : Bool} {c : Nat}
    (h : c ∈ collapseWs2 inRun s) : c ∈ s ∨ c = 32 := by
  induction s generalizing inRun with
  | nil => simp [collapseWs2] at h
  | cons a rest ih =>
    cases rest with
    | nil =>
      rw [collapseWs2] at h
      split at h
      · simp at h; right; exact h
      · simp at h; left; simp [h]
    | cons b rest2 =>
      rw [collapseWs2] at h
      split at h
      · rcases ih h with h1 | h1
        · exact Or.inl (List.mem_cons_of_mem a h1)
        · exact Or.inr h1
      · rcases List.mem_cons.mp h with h1 | h1
        · split at h1
          · exact Or.inr h1
          · exact Or.inl (h1 ▸ List.mem_cons_self a _)
        · rcases ih h1 with h2 | h2
          · exact Or.inl (List.mem_cons_of_mem a h2)
          · exact Or.inr h2

theorem enStoryChar_of_mapBang {u : JSStr} {c : Nat}
    (h : c ∈ enMapBang (u.filter enKept)) : enStoryChar c = true := by
  simp only [enMapBang, List.mem_map] at h
  obtain ⟨b, hb, hbc⟩ := h
  have hkept : enKept b = true := (List.mem_filter.mp hb).2
  by_cases hq : b = 33 ∨ b = 63
  · have : c = 46 := by rcases hq with h1 | h1 <;> simp [h1] at hbc <;> omega
    simp [this, enStoryChar]
  · push_neg at hq
    have hcb : c = b := by
      rw [if_neg] at hbc
      · exact hbc.symm
      · simp only [decide_eq_true_eq, Bool.or_eq_true]
        tauto
    subst hcb
    simp only [enKept, Bool.or_eq_true, decide_eq_true_eq] at hkept
    simp only [enStoryChar, Bool.or_eq_true, decide_eq_true_eq]
    rcases hkept with h1 | h1 | h1 | h1 | h1 | h1 <;> tauto

theorem enNorm_mem {x : JSStr} {c : Nat}
    (h : c ∈ jsTrim (collapseCommaRun (jsTrim (collapseWs2 false
      (enMapBang ((jsTrim (collapseWsAll (stripCRLF x))).filter enKept)))))) :
    enStoryChar c = true := by
  have h1 := jsTrim_mem h
  have h2 := mem_collapseCommaRun h1
  have h3 := jsTrim_mem h2
  rcases mem_collapseWs2 h3 with h4 | h4
  · exact enStoryChar_of_mapBang h4
  · simp [h4, enStoryChar]

theorem sanitizeStrictEnglishStory_shape (x : JSStr) :
    sanitizeStrictEnglishStory x = [] ∨
    ∃ parts : List JSStr, parts ≠ [] ∧ parts.length ≤ 10 ∧
      (∀ p ∈ parts, p ≠ [] ∧ ∀ c ∈ p, enStoryChar c = true ∧ c ≠ 46) ∧
      sanitizeStrictEnglishStory x = joinSep (jsStr ". ") parts ++ [46] := by
  rw [sanitizeStrictEnglishStory]
  set s := jsTrim (collapseCommaRun (jsTrim (collapseWs2 false
    (enMapBang ((jsTrim (collapseWsAll (stripCRLF x))).filter enKept))))) with hs
  set parts := (((splitOnUnit 46 s).map
      (fun x => jsTrim (stripTrailRun 44 (jsTrim x)))).filter
      (fun x => x.length ≠ 0)).take 10 with hparts
  by_cases hl : parts.length = 0
  · left; simp [hl]
  · right
    refine ⟨parts, ?_, ?_, ?_, by simp [hl]⟩
    · intro he; exact hl (by simp [he])
    · rw [hparts]; exact List.length_take_le 10 _
    · intro p hp
      have hp1 := List.mem_of_mem_take hp
      have hp2 : p.length ≠ 0 := by
        have := (List.mem_filter.mp hp1).2
        simpa using this
      have hp3 := (List.mem_filter.mp hp1).1
      simp only [List.mem_map] at hp3
      obtain ⟨q, hq, hqp⟩ := hp3
      refine ⟨by simpa using hp2, ?_⟩
      intro c hc
      have hcq : c ∈ q :=
        jsTrim_mem (mem_stripTrailRun (jsTrim_mem (hqp ▸ hc)))
      constructor
      · exact enNorm_mem (mem_splitOnUnit_subset hq c hcq)
      · intro he
        exact mem_splitOnUnit_not_sep hq (he ▸ hcq)

/-! ## Non-empty sanitizer output is a 1..10-sentence well-formed story -/

theorem sum_map_count_zero {l : List JSStr} {u : Nat}
    (h : ∀ p ∈ l, List.count u p = 0) : (l.map (List.count u)).sum = 0 := by
  induction l with
  | nil => rfl
  | cons p rest ih =>
    simp only [List.map_cons, List.sum_cons, h p (by simp)]
    simpa using ih fun q hq => h q (List.mem_cons_of_mem p hq)

theorem sanitizeStrictStory_between (x : JSStr) :
    sanitizeStrictStory x = [] ∨ zhStoryBetween 1 10 (sanitizeStrictStory x) := by
  rcases sanitizeStrictStory_shape x with h | ⟨parts, h1, h2, h3, h4⟩
  · exact Or.inl h
  · right
    rw [h4, zhStoryBetween]
    have hchars : ∀ c ∈ joinSep [zhPeriod] parts ++ [zhPeriod],
        zhStoryChar c = true := by
      intro c hc
      rcases List.mem_append.mp hc with h5 | h5
      · rcases mem_joinSep h5 with h6 | ⟨p, hp, hcp⟩
        · simp at h6; simp [h6, zhStoryChar, zhPeriod, isCJK, zhComma]
        · exact ((h3 p hp).2.1 c hcp).1
      · simp at h5; simp [h5, zhStoryChar, zhPeriod, isCJK, zhComma]
    have hcount : (joinSep [zhPeriod] parts ++ [zhPeriod]).count zhPeriod =
        parts.length := by
      rw [List.count_append, joinSep_count zhPeriod h1]
      have hsum : (parts.map (List.count zhPeriod)).sum = 0 :=
        sum_map_count_zero fun p hp =>
          List.count_eq_zero.mpr fun hm => ((h3 p hp).2.1 zhPeriod hm).2 rfl
      rw [hsum]
      simp
      have hplen : parts.length ≠ 0 := fun he => h1 (List.length_eq_zero.mp he)
      omega
    have hlen1 : 1 ≤ parts.length := by
      have : parts.length ≠ 0 := fun he => h1 (List.length_eq_zero.mp he)
      omega
    refine ⟨by simp, hchars, ?_, ?_, ?_⟩
    · simp
    · rw [hcount]; exact hlen1
    · rw [hcount]; exact h2

theorem sanitizeStrictEnglishStory_between (x : JSStr) :
    sanitizeStrictEnglishStory x = [] ∨
      enStoryBetween 1 10 (sanitizeStrictEnglishStory x) := by
  rcases sanitizeStrictEnglishStory_shape x with h | ⟨parts, h1, h2, h3, h4⟩
  · exact Or.inl h
  · right
    rw [h4, enStoryBetween]
    have hchars : ∀ c ∈ joinSep (jsStr ". ") parts ++ [46],
        enStoryChar c = true := by
      intro c hc
      rcases List.mem_append.mp hc with h5 | h5
      · rcases mem_joinSep h5 with h6 | ⟨p, hp, hcp⟩
        · have hsep : jsStr ". " = [46, 32] := by decide
          rw [hsep] at h6
          simp at h6
          rcases h6 with h7 | h7 <;> simp [h7, enStoryChar]
        · exact ((h3 p hp).2 c hcp).1
      · simp at h5; simp [h5, enStoryChar]
    have hcount : (joinSep (jsStr ". ") parts ++ [46]).count 46 =
        parts.length := by
      rw [List.count_append, joinSep_count 46 h1]
      have hsum : (parts.map (List.count 46)).sum = 0 :=
        sum_map_count_zero fun p hp =>
          List.count_eq_zero.mpr fun hm => ((h3 p hp).2 46 hm).2 rfl
      rw [hsum]
      have : (jsStr ". ").count 46 = 1 := by decide
      rw [this]
      simp
      have hplen : parts.length ≠ 0 := fun he => h1 (List.length_eq_zero.mp he)
      omega
    have hlen1 : 1 ≤ parts.length := by
      have : parts.length ≠ 0 := fun he => h1 (List.length_eq_zero.mp he)
      omega
    refine ⟨by simp, hchars, by simp, by rw [hcount]; exact hlen1,
      by rw [hcount]; exact h2⟩

/-! ## Settling the bilingual-route claim -/

theorem zhStoryBetween_mono {lo lo2 hi : Nat} {s : JSStr} (h : zhStoryBetween lo hi s)
    (hlo : lo2 ≤ lo) : zhStoryBetween lo2 hi s := by
  obtain ⟨h1, h2, h3, h4, h5⟩ := h
  exact ⟨h1, h2, h3, le_trans hlo h4, h5⟩

theorem enStoryBetween_mono {lo lo2 hi : Nat} {s : JSStr} (h : enStoryBetween lo hi s)
    (hlo : lo2 ≤ lo) : enStoryBetween lo2 hi s := by
  obtain ⟨h1, h2, h3, h4, h5⟩ := h
  exact ⟨h1, h2, h3, le_trans hlo h4, h5⟩

/-- C1 (amended): for every bilingual POST with a seed that survives
trim-and-clamp, when the upstream generator returns (even content violating
the formatting rules, including unparseable JSON — extraction then yields
empty raw stories) the response is `ok` and carries, for each language, a
non-empty story over the language's allowed characters ending in its
terminator with at most 10 sentences (exactly 6–10 when the sanitizer output
was empty and the fallback was substituted); but when the upstream call fails
or times out, the route answers with an error response (`ok:false`, HTTP
500) and appends nothing to the story log — the fallback does not cover
upstream failure. -/
theorem C1_bilingual_route_behavior (bodySeed : Option JSStr)
    (upstream : UpstreamChat) (extract : JSStr → JSStr × JSStr)
    (h : (clampText (bodySeed.getD []) 200).length ≠ 0) :
    (upstream = .failure →
      generateBilingualPOST true bodySeed upstream extract =
        (.err 500, ⟨true, false⟩)) ∧
    (∀ content, upstream = .ok content →
      ∃ z e, (generateBilingualPOST true bodySeed upstream extract).1 = .ok z e ∧
        zhStoryBetween 1 10 z ∧ enStoryBetween 1 10 e) := by
  constructor
  · rintro rfl
    simp [generateBilingualPOST, h]
  · rintro content rfl
    rcases hE : extract content with ⟨zhRaw, enRaw⟩
    simp only [generateBilingualPOST, Bool.not_true, Bool.false_eq_true,
      if_false, if_neg h, hE]
    refine ⟨_, _, rfl, ?_, ?_⟩
    · by_cases hz : (sanitizeStrictZhStory (clampText zhRaw 900)).length = 0
      · rw [if_pos hz]
        exact zhStoryBetween_mono (C2_fallback_wellformed _).1 (by norm_num)
      · rw [if_neg hz]
        rcases sanitizeStrictStory_between (clampText zhRaw 900) with h1 | h1
        · exact absurd (by simpa [sanitizeStrictZhStory] using congrArg List.length h1) hz
        · exact h1
    · by_cases hz : (sanitizeStrictEnglishStory (clampText enRaw 900)).length = 0
      · rw [if_pos hz]
        exact enStoryBetween_mono (C2_fallback_wellformed _).2 (by norm_num)
      · rw [if_neg hz]
        rcases sanitizeStrictEnglishStory_between (clampText enRaw 900) with h1 | h1
        · exact absurd (by simpa using congrArg List.length h1) hz
        · exact h1

/-- C1 witness: a concrete seed and upstream outcome discharging the
hypothesis of the amended theorem. -/
theorem C1_bilingual_route_behavior_witness :
    (clampText ((some (jsStr "hi")).getD []) 200).length ≠ 0 ∧
    (((UpstreamChat.ok (jsStr "x")) = .failure →
      generateBilingualPOST true (some (jsStr "hi")) (.ok (jsStr "x"))
        (fun _ => ([], [])) = (.err 500, ⟨true, false⟩)) ∧
    (∀ content, (UpstreamChat.ok (jsStr "x")) = .ok content →
      ∃ z e, (generateBilingualPOST true (some (jsStr "hi")) (.ok (jsStr "x"))
          (fun _ => ([], []))).1 = .ok z e ∧
        zhStoryBetween 1 10 z ∧ enStoryBetween 1 10 e)) :=
  ⟨by decide, C1_bilingual_route_behavior (some (jsStr "hi")) (.ok (jsStr "x"))
    (fun _ => ([], [])) (by decide)⟩

/-- C1 counterexample: with a non-empty seed, an upstream failure or timeout
yields the error response `ok:false`/500, not an ok response with a fallback
story; and a successful upstream reply sanitized to a single sentence is
delivered as-is, so the delivered story need not satisfy the 6–10 sentence
rule the claim names. -/
theorem C1_upstream_failure_yields_error :
    (generateBilingualPOST true (some (jsStr "hi")) .failure
      (fun _ => ([], []))).1 = .err 500 ∧
    (generateBilingualPOST true (some (jsStr "hi")) (.ok (jsStr "x"))
      (fun _ => (jsStr "一二三。", jsStr "One two."))).1 =
      .ok (jsStr "一二三。") (jsStr "One two.") ∧
    (jsStr "一二三。").count zhPeriod = 1 := by
  refine ⟨by decide, by decide, by decide⟩

/-! ## Settling the orchestrator claims -/

/-- C6: when the voice tier answers 2xx but the extracted assistant text is
empty after trimming, the route throws internally (`"Voice chat returned
empty content"`) and the catch invokes the text tier; provided the text tier
honours the zhipu client's contract (it either throws or returns trimmed
non-empty content), the turn is never an ok reply with empty assistant text,
and the TTS step — when reached — receives the non-empty text produced by the
text tier, never runs before it. -/
theorem C6_empty_voice_text_invokes_text_tier (env : ChatEnv) (text : JSStr)
    (audioB64 audioMime : Option JSStr)
    (hv : env.voice = .ok text audioB64 audioMime)
    (he : clampText text 800 = [])
    (hchat : ∀ c, env.chat = some c → jsTrim c ≠ []) :
    (chatPOST env).usedTextTier = true ∧
    (∀ t b m, (chatPOST env).result = .ok t b m → t ≠ []) ∧
    ((chatPOST env).ttsCalled = true →
      (chatPOST env).ttsInput ≠ [] ∧ (chatPOST env).usedTextTier = true) := by
  have hstep : chatPOST env = (match env.chat with
      | none => ⟨true, false, [], .err⟩
      | some content => chatTtsStep env true (clampText content 800) none none) := by
    rw [chatPOST, hv]
    simp [he]
  cases hc : env.chat with
  | none =>
    rw [hstep, hc]
    exact ⟨rfl, by rintro t b m ⟨⟩, by rintro ⟨⟩⟩
  | some c =>
    have hne : clampText c 800 ≠ [] := clampText_ne_nil (by norm_num) (hchat c hc)
    rw [hstep, hc]
    simp only [chatTtsStep]
    by_cases ht : env.ttsConfigured = true
    · rw [if_pos ht]
      cases htt : env.tts with
      | none => exact ⟨rfl, by rintro t b m ⟨⟩, fun _ => ⟨hne, rfl⟩⟩
      | some bm =>
        refine ⟨rfl, ?_, fun _ => ⟨hne, rfl⟩⟩
        intro t b m hh
        simp only [ChatResult.ok.injEq] at hh
        exact hh.1 ▸ hne
    · rw [if_neg ht]
      refine ⟨rfl, ?_, by rintro ⟨⟩⟩
      intro t b m hh
      simp only [ChatResult.ok.injEq] at hh
      exact hh.1 ▸ hne

/-- C6 witness: voice returns 2xx with whitespace-only text, the text tier
returns `"hi"`, no TTS model configured. -/
theorem C6_empty_voice_text_invokes_text_tier_witness :
    ((ChatEnv.mk false (.ok (jsStr " ") none none) (some (jsStr "hi")) none).voice =
      .ok (jsStr " ") none none ∧ clampText (jsStr " ") 800 = [] ∧
      (∀ c, (some (jsStr "hi") : Option JSStr) = some c → jsTrim c ≠ [])) ∧
    ((chatPOST ⟨false, .ok (jsStr " ") none none, some (jsStr "hi"), none⟩).usedTextTier = true ∧
    (∀ t b m, (chatPOST ⟨false, .ok (jsStr " ") none none, some (jsStr "hi"), none⟩).result =
      .ok t b m → t ≠ []) ∧
    ((chatPOST ⟨false, .ok (jsStr " ") none none, some (jsStr "hi"), none⟩).ttsCalled = true →
      (chatPOST ⟨false, .ok (jsStr " ") none none, some (jsStr "hi"), none⟩).ttsInput ≠ [] ∧
      (chatPOST ⟨false, .ok (jsStr " ") none none, some (jsStr "hi"), none⟩).usedTextTier = true)) :=
  ⟨⟨rfl, by decide, fun c hc => by
      injection hc with hc2
      rw [← hc2]
      decide⟩,
   C6_empty_voice_text_invokes_text_tier
     ⟨false, .ok (jsStr " ") none none, some (jsStr "hi"), none⟩
     (jsStr " ") none none rfl (by decide)
     (fun c hc => by
      injection hc with hc2
      rw [← hc2]
      decide)⟩

/-- C7 (amended): once a turn reaches the TTS step with non-empty assistant
text — whether the text came from the voice tier (2xx, non-empty extracted
text, no embedded audio) or from the text-tier fallback that the cascade
prescribes (voice failure or empty voice text, then `zhipuChatCompletions`) —
a text-only success is delivered only when no TTS model is configured; with a
TTS model configured, a `zhipuTts` throw propagates to the outer catch and
the turn IS reported as an error (HTTP 500) — a TTS failure is not converted
into a text-only success — while a TTS success attaches the audio.
`usedText` records the path: `false` for voice-tier text, `true` for the
text-tier fallback. -/
theorem C7_tts_outcomes (env : ChatEnv) (textOut : JSStr) (usedText : Bool)
    (ht : textOut ≠ [])
    (hreach :
      (usedText = false ∧
        ∃ t, env.voice = .ok t none none ∧ clampText t 800 = textOut) ∨
      (usedText = true ∧
        (env.voice = .failure ∨
          ∃ t a m, env.voice = .ok t a m ∧ clampText t 800 = []) ∧
        ∃ c, env.chat = some c ∧ clampText c 800 = textOut)) :
    (env.ttsConfigured = false →
      chatPOST env = ⟨usedText, false, [], .ok textOut none none⟩) ∧
    (env.ttsConfigured = true → env.tts = none →
      chatPOST env = ⟨usedText, true, textOut, .err⟩) ∧
    (∀ b m, env.ttsConfigured = true → env.tts = some (b, m) →
      chatPOST env = ⟨usedText, true, textOut,
        .ok textOut (some b) (some m)⟩) := by
  have hstep : chatPOST env = chatTtsStep env usedText textOut none none := by
    rcases hreach with ⟨rfl, t, hv, hct⟩ | ⟨rfl, hfail, c, hc, hct⟩
    · have hlen : ¬ (clampText t 800).length = 0 := by
        rw [hct]
        exact fun he => ht (List.length_eq_zero.mp he)
      rw [chatPOST, hv]
      simp [hlen, hct, ht]
    · rcases hfail with hv | ⟨t, a, m, hv, hce⟩
      · rw [chatPOST, hv]
        simp [hc, hct]
      · have hlen : (clampText t 800).length = 0 := by rw [hce]; rfl
        rw [chatPOST, hv]
        simp [hlen, hc, hct]
  rw [hstep]
  simp only [chatTtsStep]
  refine ⟨fun h1 => ?_, fun h1 h2 => ?_, fun b m h1 h2 => ?_⟩
  · simp [h1]
  · simp [h1, h2]
  · simp [h1, h2]

/-- C7 witness: the text-tier fallback path — voice tier fails, the text
model returns `"hi"`, no TTS model configured — delivers the text-only ok
reply. -/
theorem C7_tts_outcomes_witness :
    ((jsStr "hi" : JSStr) ≠ [] ∧
     (((false : Bool) = false ∧
        ∃ t, (ChatEnv.mk false .failure (some (jsStr "hi")) none).voice =
          .ok t none none ∧ clampText t 800 = jsStr "hi") ∨
      ((true : Bool) = true ∧
        ((ChatEnv.mk false .failure (some (jsStr "hi")) none).voice = .failure ∨
          ∃ t a m, (ChatEnv.mk false .failure (some (jsStr "hi")) none).voice =
            .ok t a m ∧ clampText t 800 = []) ∧
        ∃ c, (ChatEnv.mk false .failure (some (jsStr "hi")) none).chat = some c ∧
          clampText c 800 = jsStr "hi"))) ∧
    (((false : Bool) = false →
      chatPOST ⟨false, .failure, some (jsStr "hi"), none⟩ =
        ⟨true, false, [], .ok (jsStr "hi") none none⟩) ∧
    ((false : Bool) = true → (none : Option (JSStr × JSStr)) = none →
      chatPOST ⟨false, .failure, some (jsStr "hi"), none⟩ =
        ⟨true, true, jsStr "hi", .err⟩) ∧
    (∀ b m, (false : Bool) = true → (none : Option (JSStr × JSStr)) = some (b, m) →
      chatPOST ⟨false, .failure, some (jsStr "hi"), none⟩ =
        ⟨true, true, jsStr "hi", .ok (jsStr "hi") (some b) (some m)⟩)) :=
  ⟨⟨by decide, Or.inr ⟨rfl, Or.inl rfl, ⟨jsStr "hi", rfl, by decide⟩⟩⟩,
   C7_tts_outcomes ⟨false, .failure, some (jsStr "hi"), none⟩ (jsStr "hi") true
     (by decide) (Or.inr ⟨rfl, Or.inl rfl, ⟨jsStr "hi", rfl, by decide⟩⟩)⟩

/-- C7 counterexample: a turn that reached the TTS attempt with the non-empty
text `"hello"` (voice tier 2xx, no embedded audio, TTS model configured) ends
in the error result when `zhipuTts` throws — the TTS failure is surfaced as a
turn failure, against the claim. -/
theorem C7_tts_throw_fails_turn :
    chatPOST ⟨true, .ok (jsStr "hello") none none, some (jsStr "hi"), none⟩ =
      ⟨false, true, jsStr "hello", .err⟩ := by decide

/-! ## Settling the playback-scheduler claim -/

/-- C8 (amended): arming from a clean state registers exactly one listener
set, and re-arming while armed is a no-op; the first gesture fires exactly one
playback attempt and removes the fired listener set whatever the attempt's
outcome; after a non-throwing attempt the pending payload is cleared and a
further gesture is a complete no-op; after a synchronously-throwing attempt
the payload is restored and the scheduler re-armed (one listener set) — the
pending item is NOT cleared in that outcome. -/
theorem C8_gesture_scheduler (st : SpeakSched)
    (hcan : st.canSystemSpeak = true) (harm : st.armed = false)
    (hlis : st.listeners = 0) (hpend : (jsTrim st.pendingText).length ≠ 0) :
    scheduleSpeakOnNextGesture st = { st with armed := true, listeners := 1 } ∧
    scheduleSpeakOnNextGesture (scheduleSpeakOnNextGesture st) =
      scheduleSpeakOnNextGesture st ∧
    (∀ thr, (fireGesture thr (scheduleSpeakOnNextGesture st)).attempts =
      st.attempts + 1) ∧
    fireGesture false (scheduleSpeakOnNextGesture st) =
      { st with armed := false, listeners := 0, pendingText := [],
                attempts := st.attempts + 1 } ∧
    (∀ thr, fireGesture thr (fireGesture false (scheduleSpeakOnNextGesture st)) =
      fireGesture false (scheduleSpeakOnNextGesture st)) ∧
    fireGesture true (scheduleSpeakOnNextGesture st) =
      { st with armed := true, listeners := 1,
                pendingText := jsTrim st.pendingText,
                attempts := st.attempts + 1 } := by
  obtain ⟨can, arm, pend, lis, att⟩ := st
  simp only at hcan harm hlis hpend
  subst hcan harm hlis
  have hidem := jsTrim_idem pend
  have harmed : scheduleSpeakOnNextGesture ⟨true, false, pend, 0, att⟩ =
      ⟨true, true, pend, 1, att⟩ := by
    rw [scheduleSpeakOnNextGesture]
    simp [hpend]
  have hfalse : fireGesture false (scheduleSpeakOnNextGesture ⟨true, false, pend, 0, att⟩) =
      ⟨true, false, [], 0, att + 1⟩ := by
    have hne : jsTrim pend ≠ [] := fun he => hpend (by simp [he])
    rw [harmed, fireGesture]
    simp [speakWithSystem, hidem, hne, hpend]
  refine ⟨harmed, ?_, ?_, ?_, ?_, ?_⟩
  · rw [harmed, scheduleSpeakOnNextGesture]
    simp
  · intro thr
    have hne : jsTrim pend ≠ [] := fun he => hpend (by simp [he])
    rw [harmed, fireGesture]
    cases thr <;>
      simp [speakWithSystem, scheduleSpeakOnNextGesture, hidem, hne, hpend]
  · exact hfalse
  · intro thr
    rw [hfalse, fireGesture]
    simp
  · have hne : jsTrim pend ≠ [] := fun he => hpend (by simp [he])
    rw [harmed, fireGesture]
    simp [speakWithSystem, scheduleSpeakOnNextGesture, hidem, hne, hpend]

/-- C8 witness: the clean armed state with pending text `"hi"`. -/
theorem C8_gesture_scheduler_witness :
    ((SpeakSched.mk true false (jsStr "hi") 0 0).canSystemSpeak = true ∧
     (SpeakSched.mk true false (jsStr "hi") 0 0).armed = false ∧
     (SpeakSched.mk true false (jsStr "hi") 0 0).listeners = 0 ∧
     (jsTrim (SpeakSched.mk true false (jsStr "hi") 0 0).pendingText).length ≠ 0) ∧
    (scheduleSpeakOnNextGesture ⟨true, false, jsStr "hi", 0, 0⟩ =
      ⟨true, true, jsStr "hi", 1, 0⟩ ∧
    scheduleSpeakOnNextGesture (scheduleSpeakOnNextGesture ⟨true, false, jsStr "hi", 0, 0⟩) =
      scheduleSpeakOnNextGesture ⟨true, false, jsStr "hi", 0, 0⟩ ∧
    (∀ thr, (fireGesture thr (scheduleSpeakOnNextGesture ⟨true, false, jsStr "hi", 0, 0⟩)).attempts =
      0 + 1) ∧
    fireGesture false (scheduleSpeakOnNextGesture ⟨true, false, jsStr "hi", 0, 0⟩) =
      ⟨true, false, [], 0, 0 + 1⟩ ∧
    (∀ thr, fireGesture thr (fireGesture false
        (scheduleSpeakOnNextGesture ⟨true, false, jsStr "hi", 0, 0⟩)) =
      fireGesture false (scheduleSpeakOnNextGesture ⟨true, false, jsStr "hi", 0, 0⟩)) ∧
    fireGesture true (scheduleSpeakOnNextGesture ⟨true, false, jsStr "hi", 0, 0⟩) =
      ⟨true, true, jsTrim (jsStr "hi"), 1, 0 + 1⟩) :=
  ⟨⟨rfl, rfl, rfl, by decide⟩,
   C8_gesture_scheduler ⟨true, false, jsStr "hi", 0, 0⟩ rfl rfl rfl (by decide)⟩

/-- C8 counterexample: after the gesture fires a synchronously-throwing
playback attempt, the pending payload is back (`"hi"`) and a listener set is
registered again — the claim's "pending item and all gesture listeners are
cleared regardless of the attempt's outcome" fails for the throwing
outcome. -/
theorem C8_throwing_attempt_restores_pending :
    fireGesture true (scheduleSpeakOnNextGesture ⟨true, false, jsStr "hi", 0, 0⟩) =
      ⟨true, true, jsStr "hi", 1, 1⟩ := by decide

/-! ## Settling the watchdog claim -/

/-- C9: a stop/timeout watchdog callback tagged with an attempt-counter value
the counter has advanced past is a complete no-op — the state (recording,
sending, phase) is untouched and no chat turn is issued; and any later
`stopRecordingAndSend` leaves the tag stale, since the counter only grows. -/
theorem C9_stale_watchdog_noop (st : RecSession) (attemptId : Nat)
    (h : attemptId < st.recordStopAttempt) :
    recordStopWatchdogFire attemptId st = st ∧
    (∀ active : Bool,
      attemptId < ((stopRecordingAndSend active st).1).recordStopAttempt ∧
      (stopRecordingAndSend active st).2 = st.recordStopAttempt + 1) := by
  constructor
  · rw [recordStopWatchdogFire, if_pos (by omega)]
  · intro active
    cases active <;> simp [stopRecordingAndSend] <;> omega

/-- C9 witness: a callback tagged `1` firing while the counter stands at `2`. -/
theorem C9_stale_watchdog_noop_witness :
    (1 < (RecSession.mk false false .idle false 2 none 0).recordStopAttempt) ∧
    (recordStopWatchdogFire 1 ⟨false, false, .idle, false, 2, none, 0⟩ =
      ⟨false, false, .idle, false, 2, none, 0⟩ ∧
    (∀ active : Bool,
      1 < ((stopRecordingAndSend active ⟨false, false, .idle, false, 2, none, 0⟩).1).recordStopAttempt ∧
      (stopRecordingAndSend active ⟨false, false, .idle, false, 2, none, 0⟩).2 =
        (RecSession.mk false false .idle false 2 none 0).recordStopAttempt + 1)) :=
  ⟨by decide, C9_stale_watchdog_noop ⟨false, false, .idle, false, 2, none, 0⟩ 1 (by decide)⟩

/-! ## Settling the seed-validation claim -/

/-- C10: a POST whose body yields no usable seed — invalid JSON, missing or
non-string `seed` (all coerced to `""`), or a seed that trims to the empty
string (whitespace-only included, since `clampText` trims before the length
clamp and the emptiness check) — is answered `ok:false` with HTTP 400 by both
story-generation routes, before any upstream model call and without appending
a record to the story log. -/
theorem C10_seed_validation (bodySeed : Option JSStr) (upstream : UpstreamChat)
    (extract : JSStr → JSStr × JSStr)
    (h : (clampText (bodySeed.getD []) 200).length = 0) :
    generateBilingualPOST true bodySeed upstream extract =
      (.err 400, ⟨false, false⟩) ∧
    generatePOST true bodySeed upstream = (.err 400, ⟨false, false⟩) := by
  constructor
  · rw [generateBilingualPOST]
    simp [h]
  · rw [generatePOST]
    simp [h]

/-- C10 witness: a whitespace-only seed is rejected with 400 and no effects. -/
theorem C10_seed_validation_witness :
    (clampText ((some (jsStr "  ")).getD []) 200).length = 0 ∧
    (generateBilingualPOST true (some (jsStr "  ")) .failure (fun _ => ([], [])) =
      (.err 400, ⟨false, false⟩) ∧
    generatePOST true (some (jsStr "  ")) .failure = (.err 400, ⟨false, false⟩)) :=
  ⟨by decide, C10_seed_validation (some (jsStr "  ")) .failure (fun _ => ([], []))
    (by decide)⟩

/-! ## Settling the WAV-encoder claims -/

theorem take_append_len {α : Type} {l1 l2 : List α} {k : Nat}
    (h : l1.length = k) : (l1 ++ l2).take k = l1 := by
  subst h; exact List.take_left l1 l2

theorem drop_append_len {α : Type} {l1 l2 : List α} {k : Nat}
    (h : l1.length = k) : (l1 ++ l2).drop k = l2 := by
  subst h; exact List.drop_left l1 l2

theorem flatten_pairs_length (samples : List ℚ) :
    ((samples.map fun s => i16le (sampleToI16 s)).flatten).length =
      samples.length * 2 := by
  induction samples with
  | nil => rfl
  | cons a rest ih =>
    have h2 : (i16le (sampleToI16 a)).length = 2 := rfl
    simp only [List.map_cons, List.flatten_cons, List.length_append, ih,
      List.length_cons, h2]
    ring

theorem flatten_pairs_get {samples : List ℚ} (i : Nat) (hi : i < samples.length) :
    (((samples.map fun s => i16le (sampleToI16 s)).flatten).drop (2 * i)).take 2 =
      i16le (sampleToI16 (samples.get ⟨i, hi⟩)) := by
  induction samples generalizing i with
  | nil => simp at hi
  | cons a rest ih =>
    cases i with
    | zero =>
      simp only [List.map_cons, List.flatten_cons, Nat.mul_zero, List.drop_zero]
      exact take_append_len rfl
    | succ j =>
      have hj : j < rest.length := by simpa using hi
      have hdd : ((a :: rest).map fun s => i16le (sampleToI16 s)).flatten.drop (2 * (j + 1)) =
          ((rest.map fun s => i16le (sampleToI16 s)).flatten).drop (2 * j) := by
        simp only [List.map_cons, List.flatten_cons]
        have h1 : (2 : Nat) * (j + 1) = 2 + 2 * j := by ring
        rw [h1, ← List.drop_drop (2 * j) 2]
        rw [drop_append_len (show (i16le (sampleToI16 a)).length = 2 from rfl)]
      rw [hdd, ih j hj]
      rfl

theorem audioBufferToWavBytes_length (buf : AudioBuffer) (targetRate maxDur : Nat) :
    (audioBufferToWavBytes buf targetRate maxDur).length =
      44 + (wavSamples buf targetRate maxDur).length * 2 := by
  rw [audioBufferToWavBytes]
  simp only [List.length_append, flatten_pairs_length, u32le, u16le,
    List.length_cons, List.length_nil]

set_option maxHeartbeats 2000000 in
/-- C4: for every decoded buffer — any channel count, any frame count, any
source sample rate — the encoder emits `44 + numSamples·2` bytes: a RIFF
header declaring chunk size `36 + numSamples·2`, a `fmt ` chunk of size 16
declaring PCM (tag 1), exactly 1 channel, sample rate 16000, byte rate 32000,
block align 2 and 16 bits per sample, and a `data` chunk of `numSamples·2`
bytes in which sample `i` is the little-endian two's complement of the input
clamped to `[-1, 1]` and scaled by `0x8000` when negative and `0x7fff`
otherwise, truncated toward zero. -/
theorem C4_wav_encoder_format (buf : AudioBuffer) :
    (audioBufferToWavBytes buf 16000 8).length =
      44 + (wavSamples buf 16000 8).length * 2 ∧
    (audioBufferToWavBytes buf 16000 8).take 4 = [82, 73, 70, 70] ∧
    ((audioBufferToWavBytes buf 16000 8).drop 4).take 4 =
      u32le (36 + (wavSamples buf 16000 8).length * 2) ∧
    ((audioBufferToWavBytes buf 16000 8).drop 8).take 8 =
      [87, 65, 86, 69, 102, 109, 116, 32] ∧
    ((audioBufferToWavBytes buf 16000 8).drop 16).take 4 = u32le 16 ∧
    ((audioBufferToWavBytes buf 16000 8).drop 20).take 2 = u16le 1 ∧
    ((audioBufferToWavBytes buf 16000 8).drop 22).take 2 = u16le 1 ∧
    ((audioBufferToWavBytes buf 16000 8).drop 24).take 4 = u32le 16000 ∧
    ((audioBufferToWavBytes buf 16000 8).drop 28).take 4 = u32le 32000 ∧
    ((audioBufferToWavBytes buf 16000 8).drop 32).take 2 = u16le 2 ∧
    ((audioBufferToWavBytes buf 16000 8).drop 34).take 2 = u16le 16 ∧
    ((audioBufferToWavBytes buf 16000 8).drop 36).take 4 = [100, 97, 116, 97] ∧
    ((audioBufferToWavBytes buf 16000 8).drop 40).take 4 =
      u32le ((wavSamples buf 16000 8).length * 2) ∧
    ∀ i : Fin (wavSamples buf 16000 8).length,
      ((audioBufferToWavBytes buf 16000 8).drop (44 + 2 * i.1)).take 2 =
        i16le (jsTruncInt
          (if max (-1) (min 1 ((wavSamples buf 16000 8).get i)) < 0
           then max (-1) (min 1 ((wavSamples buf 16000 8).get i)) * 0x8000
           else max (-1) (min 1 ((wavSamples buf 16000 8).get i)) * 0x7fff)) := by
  refine ⟨audioBufferToWavBytes_length buf 16000 8,
    rfl, rfl, rfl, rfl, rfl, rfl, rfl, rfl, rfl, rfl, rfl, rfl, ?_⟩
  intro i
  have hdata : (audioBufferToWavBytes buf 16000 8).drop 44 =
      ((wavSamples buf 16000 8).map fun s => i16le (sampleToI16 s)).flatten := rfl
  have hsh : (audioBufferToWavBytes buf 16000 8).drop (44 + 2 * i.1) =
      (((wavSamples buf 16000 8).map fun s => i16le (sampleToI16 s)).flatten).drop
        (2 * i.1) := by
    rw [← List.drop_drop (2 * i.1) 44, hdata]
  rw [hsh, flatten_pairs_get i.1 i.2]
  rfl

/-- C5: when the resampled signal exceeds 8 s × 16000 Hz = 128000 samples, the
encoded clip holds exactly 128000 samples and the emitted WAV is exactly
`44 + 128000·2` bytes; a resampled signal at or under the bound is serialized
unchanged — never padded or stretched. -/
theorem C5_duration_cap (buf : AudioBuffer) :
    ((resampleLinear (monoMix buf) buf.sampleRate ((16000 : ℕ) : ℚ)).length > 128000 →
      (wavSamples buf 16000 8).length = 128000 ∧
      (audioBufferToWavBytes buf 16000 8).length = 44 + 128000 * 2) ∧
    ((resampleLinear (monoMix buf) buf.sampleRate ((16000 : ℕ) : ℚ)).length ≤ 128000 →
      wavSamples buf 16000 8 = resampleLinear (monoMix buf) buf.sampleRate
        ((16000 : ℕ) : ℚ)) := by
  have hmax : ((max 1 (round (((16000 : ℕ) : ℚ) * ((8 : ℕ) : ℚ)))).toNat) = 128000 := by
    have h1 : (((16000 : ℕ) : ℚ) * ((8 : ℕ) : ℚ)) = ((128000 : ℕ) : ℚ) := by norm_num
    rw [h1, round_natCast]
    decide
  have hsam : wavSamples buf 16000 8 =
      (if 128000 < (resampleLinear (monoMix buf) buf.sampleRate ((16000 : ℕ) : ℚ)).length
       then (resampleLinear (monoMix buf) buf.sampleRate ((16000 : ℕ) : ℚ)).take 128000
       else resampleLinear (monoMix buf) buf.sampleRate ((16000 : ℕ) : ℚ)) := by
    rw [wavSamples, hmax]
  constructor
  · intro h
    have hlen : (wavSamples buf 16000 8).length = 128000 := by
      rw [hsam, if_pos h, List.length_take]
      omega
    refine ⟨hlen, ?_⟩
    rw [audioBufferToWavBytes_length, hlen]
  · intro h
    rw [hsam, if_neg (by omega)]

/-- C5 witness: a 128001-frame one-channel buffer already at 16000 Hz (just
over 8 s; the channel data reads as silence) is capped at 128000 samples and
`44 + 128000·2` bytes. -/
theorem C5_duration_cap_witness :
    (resampleLinear (monoMix (AudioBuffer.mk 16000 128001 [([] : List ℚ)]))
      (AudioBuffer.mk 16000 128001 [([] : List ℚ)]).sampleRate
      ((16000 : ℕ) : ℚ)).length > 128000 ∧
    ((wavSamples (AudioBuffer.mk 16000 128001 [([] : List ℚ)]) 16000 8).length =
      128000 ∧
    (audioBufferToWavBytes (AudioBuffer.mk 16000 128001 [([] : List ℚ)])
      16000 8).length = 44 + 128000 * 2) := by
  have hres : (resampleLinear (monoMix (AudioBuffer.mk 16000 128001 [([] : List ℚ)]))
      (AudioBuffer.mk 16000 128001 [([] : List ℚ)]).sampleRate
      ((16000 : ℕ) : ℚ)).length > 128000 := by
    rw [resampleLinear, if_pos (by norm_num)]
    rw [monoMix, List.length_map, List.length_range]
    norm_num
  exact ⟨hres,
    (C5_duration_cap (AudioBuffer.mk 16000 128001 [([] : List ℚ)])).1 hres⟩

end Story
